import Mathlib

/-! # kontinuous: build persistence, stage materialisation, deletion and notification

A shallow embedding of `pipeline/build.go`.

* Go strings are Lean `String`s, Go `int`/`int64` values are `Int`s that a
  well-formed record keeps inside the 64-bit signed range (`isInt64`).
* The metadata store `kv.KVClient` is a Go interface; it is embedded as a
  record of operations over an arbitrary state type `σ`.  Reads observe the
  state, writes return the error (if any) together with the next state.
* `strconv.FormatInt` and `strconv.ParseInt` (base 10, 64 bit) are embedded
  from the Go standard library.
* The names of package `pipeline` that `build.go` uses but that are defined
  in other files (`getPipeline`, `getStage`, `Stage.Save`, `generateUUID`,
  the constants) are parameters, gathered in `Env`; the record `Stage` and
  `handleSaveError` are modelled from the specification.
* `encoding/json` and `text/template` enter through `StageCodec`; `goCodec`
  embeds them on a fragment and leaves the rest to an `Oracle`.
* A call that can panic ends in an `Exit`, which keeps the state reached.
-/

set_option autoImplicit false

namespace Kontinuous

/-! ## Errors and the metadata store interface -/

/-- Errors reported by the stores.  `keyNotFound` is the one error that
`etcd.IsKeyNotFound` recognises. -/
inductive Err where
  | keyNotFound
  | other (msg : String)
deriving DecidableEq, Repr

/-- The predicate `etcd.IsKeyNotFound(err)`; a nil error is not "not found". -/
def IsKeyNotFound : Option Err → Bool
  | some Err.keyNotFound => true
  | _ => false

/-- The type `kv.KVPair`: one entry of a directory listing. -/
structure KVPair where
  Key : String
  Value : String
deriving DecidableEq, Repr

/-- The interface `kv.KVClient`, as far as `build.go` consumes it. -/
structure KVClient (σ : Type) where
  Get : String → σ → String × Option Err
  GetInt : String → σ → Int × Option Err
  GetDir : String → σ → List KVPair × Option Err
  Put : String → String → σ → Option Err × σ
  PutInt : String → Int → σ → Option Err × σ
  DeleteTree : String → σ → Option Err × σ

/-! ## strconv -/

/-- Membership in the range of Go's `int64`. -/
def isInt64 (x : Int) : Prop := -(2 : Int) ^ 63 ≤ x ∧ x < (2 : Int) ^ 63

instance (x : Int) : Decidable (isInt64 x) := by
  unfold isInt64; exact inferInstance

/-- The errors of `strconv`: `ErrSyntax` and `ErrRange`. -/
inductive NumError where
  | errSyntax
  | errRange
deriving DecidableEq, Repr

def maxUint64 : Nat := 2 ^ 64 - 1

/-- The constant `cutoff = maxUint64/10 + 1` of `ParseUint` in base 10. -/
def cutoff10 : Nat := maxUint64 / 10 + 1

/-- The digit loop of `strconv.ParseUint(s, 10, 64)`.  In Go `n*10 + d` is
computed modulo `2^64` and the wrap is detected by `n1 < n`; as `n < cutoff`
rules out a wrap of `n*10`, that test is `n*10 + d > maxUint64` on naturals. -/
def parseUintLoop : List Char → Nat → Nat × Option NumError
  | [], n => (n, none)
  | c :: cs, n =>
    if 48 ≤ c.toNat ∧ c.toNat ≤ 57 then
      if n ≥ cutoff10 then (maxUint64, some NumError.errRange)
      else
        let n1 := n * 10 + (c.toNat - 48)
        if n1 > maxUint64 then (maxUint64, some NumError.errRange)
        else parseUintLoop cs n1
    else (0, some NumError.errSyntax)

/-- The function `strconv.ParseUint(s, 10, 64)`. -/
def ParseUint (s : List Char) : Nat × Option NumError :=
  match s with
  | [] => (0, some NumError.errSyntax)
  | _ => parseUintLoop s 0

/-- The sign and range handling of `strconv.ParseInt(s, 10, 64)` once the
sign has been picked off. -/
def parseIntSigned (neg : Bool) (digits : List Char) : Int × Option NumError :=
  match ParseUint digits with
  | (_, some NumError.errSyntax) => (0, some NumError.errSyntax)
  | (un, _) =>
    if !neg && un ≥ 2 ^ 63 then ((2 : Int) ^ 63 - 1, some NumError.errRange)
    else if neg && un > 2 ^ 63 then (-(2 : Int) ^ 63, some NumError.errRange)
    else if neg then (-(un : Int), none) else ((un : Int), none)

/-- The function `strconv.ParseInt(s, 10, 64)`: the value and the error. -/
def ParseInt (s : String) : Int × Option NumError :=
  match s.data with
  | [] => (0, some NumError.errSyntax)
  | ch :: rest =>
    if ch = '+' then parseIntSigned false rest
    else if ch = '-' then parseIntSigned true rest
    else parseIntSigned false (ch :: rest)

/-- The digit loop of `strconv.formatBits` in base 10: digits are produced
from the least significant one and prepended. -/
def formatBits : Nat → Nat → List Char → List Char
  | 0, u, acc => Char.ofNat (48 + u % 10) :: acc
  | fuel + 1, u, acc =>
    if u ≥ 10 then formatBits fuel (u / 10) (Char.ofNat (48 + u % 10) :: acc)
    else Char.ofNat (48 + u) :: acc

/-- The function `strconv.FormatInt(i, 10)`. -/
def FormatInt (i : Int) : String :=
  if i < 0 then String.mk ('-' :: formatBits i.natAbs i.natAbs [])
  else String.mk (formatBits i.natAbs i.natAbs [])

/-- Whether a character is a decimal digit. -/
def isDigitChar (ch : Char) : Bool := decide (48 ≤ ch.toNat ∧ ch.toNat ≤ 57)

/-- The number that a digit string denotes, read from the left and continuing
the number `n`. -/
def digitsValue : List Char → Nat → Nat
  | [], n => n
  | ch :: cs, n => digitsValue cs (n * 10 + (ch.toNat - 48))

/-- The timestamp that the lenient decoding of a stored text yields, stated
without the parsing loop.  The text is an optional sign and a body.  An empty
body gives 0.  If the leading digits of the body denote more than 64 unsigned
bits, the result is the bound of `int64` on the side of the sign, whatever
follows the digits.  Otherwise a body with a character that is not a digit
gives 0, and a body of digits gives its signed value, clamped to the bounds
of `int64`. -/
def lenientInt64 (s : String) : Int :=
  let neg : Bool := s.data.head? = some '-'
  let body := if s.data.head? = some '+' ∨ s.data.head? = some '-' then s.data.tail else s.data
  let ds := body.takeWhile isDigitChar
  let v := digitsValue ds 0
  if body = [] then 0
  else if v > maxUint64 then (if neg then -(2 : Int) ^ 63 else (2 : Int) ^ 63 - 1)
  else if ds ≠ body then 0
  else if neg then (if v > 2 ^ 63 then -(2 : Int) ^ 63 else -(v : Int))
  else (if v ≥ 2 ^ 63 then (2 : Int) ^ 63 - 1 else (v : Int))

/-! ## Data model -/

/-- A value of Go type `interface{}` as it occurs in a `Vars` map: a string,
an integer, a boolean or nil. -/
inductive Value where
  | str (s : String)
  | int (n : Int)
  | bool (b : Bool)
  | null
deriving DecidableEq, Repr

/-- The text `fmt.Sprintf("%v", value)`. -/
def Value.format : Value → String
  | Value.str s => s
  | Value.int n => FormatInt n
  | Value.bool true => "true"
  | Value.bool false => "false"
  | Value.null => "<nil>"

/-- A Go `map[string]interface{}`, given by its entries in the order in which
`range` visits them.  A map holds one entry per key. -/
abbrev Vars := List (String × Value)

/-- A Go `map[string]string`, kept with one entry per key. -/
abbrev VarMap := List (String × String)

/-- The assignment `m[key] = value` on a `map[string]string`. -/
def VarMap.set (m : VarMap) (key value : String) : VarMap :=
  (key, value) :: m.filter (fun e => e.1 ≠ key)

/-- The lookup `m[key]` with its presence flag. -/
def VarMap.get? (m : VarMap) (key : String) : Option String :=
  (m.find? (fun e => e.1 = key)).map Prod.snd

/-- Modelled from the spec: the record `Stage` of `stage.go`, which is not
part of the sources at hand.  The fields are the attributes the
specification lists (generated `ID`, 1-based `Index`, `Name`, `Type`,
`Status`, `Started`/`Finished` timestamps and the `Vars` map). -/
structure Stage where
  ID : String
  Index : Int
  Name : String
  Type_ : String
  Status : String
  Started : Int
  Finished : Int
  Vars : Vars
deriving DecidableEq, Repr

/-- The record `Build`. -/
structure Build where
  ID : String
  Number : Int
  Status : String
  Created : Int
  Started : Int
  Finished : Int
  CurrentStage : Int
  Branch : String
  Commit : String
  Author : String
  Event : String
  CloneURL : String
  Pipeline : String
  Stages : List Stage
deriving DecidableEq, Repr

/-- The record `BuildSummary`. -/
structure BuildSummary where
  ID : String
  Number : Int
  Status : String
  Created : Int
  Started : Int
  Finished : Int
  Branch : String
  Commit : String
  Author : String
deriving DecidableEq, Repr

/-- A notifier configuration of a pipeline, as `Notify` reads it. -/
structure Notifier where
  Type_ : String
  Namespace : String
  Metadata : Vars
deriving DecidableEq, Repr

/-- The fields of the record `Pipeline` that `build.go` reads. -/
structure Pipeline where
  Vars : Vars
  Secrets : List String
  Notifiers : List Notifier
deriving DecidableEq, Repr

/-- How a call ends: it returns a nil error, returns an error, or panics. -/
inductive Exit where
  | ok
  | error (e : Err)
  | panic
deriving DecidableEq, Repr

/-- The library calls of `parseStageTemplate`: `json.Marshal`,
`template.New("stage").Funcs(sprig.TxtFuncMap()).Parse` (nil template on a
parse error), `ExecuteTemplate` and `json.Unmarshal` into the stage. -/
structure StageCodec (τ : Type) where
  Marshal : Stage → String
  Parse : String → Option τ
  Execute : τ → VarMap → Except Err String
  Unmarshal : String → Stage → Stage

/-- The package-level names of `pipeline` that `build.go` uses and that are
defined in files not at hand: the constants `pipelineNamespace` and
`BuildPending`, `generateUUID` (drawing from a generator state `ρ`),
`getPipeline`, `getStage` and `Stage.Save`. -/
structure Env (σ ρ : Type) where
  pipelineNamespace : String
  BuildPending : String
  generateUUID : ρ → String × ρ
  getPipeline : String → σ → Pipeline
  getStage : String → σ → Stage
  stageSave : Stage → String → σ → Option Err × σ

/-- The interface of `mc.MinioClient` that `Delete` consumes, over the state
`μ` of the artifact store. -/
structure MinioClient (μ : Type) where
  DeleteTree : String → String → μ → Option Err × μ

/-! ## Operations of `build.go` -/

section Operations

variable {σ ρ τ μ : Type}

/-- Modelled from the spec: `handleSaveError`, defined in a file not at hand.
On a failing write, "if the build was new, the partially-written subtree is
torn down (best-effort delete subtree)"; "if the build already existed, the
partial write is left in place"; the failure is reported either way. -/
def handleSaveError (c : KVClient σ) (path : String) (isNew : Bool) (err : Err) (s : σ) :
    Exit × σ :=
  if isNew then (Exit.error err, (c.DeleteTree path s).2) else (Exit.error err, s)

/-- The first loop of `parseStageTemplate`: every entry of every map is
assigned into `allVars`, in the order of the maps. -/
def mergeVars (varMaps : List Vars) : VarMap :=
  varMaps.foldl
    (fun allVars varMap => varMap.foldl (fun m e => m.set e.1 e.2.format) allVars) []

/-- The function `parseStageTemplate`.  A failed `Parse` leaves the nil
template, on which `ExecuteTemplate` panics; a failed execution returns its
error before the stage is touched. -/
def parseStageTemplate (cd : StageCodec τ) (stage : Stage) (varMaps : List Vars) :
    Exit × Stage :=
  let allVars := mergeVars varMaps
  let stageStr := cd.Marshal stage
  match cd.Parse stageStr with
  | none => (Exit.panic, stage)
  | some template =>
    match cd.Execute template allVars with
    | Except.error err => (Exit.error err, stage)
    | Except.ok stageBuffer => (Exit.ok, cd.Unmarshal stageBuffer stage)

/-- The loop of `CreateStages` from position `idx` on.  The error returned by
`parseStageTemplate` is dropped, as in the source; a panic ends the call. -/
def createStagesFrom (env : Env σ ρ) (cd : StageCodec τ) (stagesPrefix : String)
    (p : Pipeline) : Nat → List Stage → σ → ρ → Exit × List Stage × σ × ρ
  | _, [], s, g => (Exit.ok, [], s, g)
  | idx, stage :: rest, s, g =>
    let stage1 : Stage :=
      { stage with
        Status := env.BuildPending, Index := (idx : Int) + 1, ID := (env.generateUUID g).1 }
    let g1 := (env.generateUUID g).2
    match parseStageTemplate cd stage1 [p.Vars, stage1.Vars] with
    | (Exit.panic, stage2) => (Exit.panic, stage2 :: rest, s, g1)
    | (_, stage2) =>
      match env.stageSave stage2 stagesPrefix s with
      | (some err, s1) => (Exit.error err, stage2 :: rest, s1, g1)
      | (none, s1) =>
        let r := createStagesFrom env cd stagesPrefix p (idx + 1) rest s1 g1
        (r.1, stage2 :: r.2.1, r.2.2.1, r.2.2.2)

/-- The method `Build.CreateStages`; the stages are updated in place, so the
build is returned with them. -/
def Build.CreateStages (env : Env σ ρ) (cd : StageCodec τ) (b : Build) (s : σ) (g : ρ) :
    Exit × Build × σ × ρ :=
  let buildsPrefix := env.pipelineNamespace ++ b.Pipeline ++ "/builds"
  let stagesPrefix := buildsPrefix ++ "/" ++ FormatInt b.Number ++ "/stages"
  let p := env.getPipeline (env.pipelineNamespace ++ b.Pipeline) s
  let r := createStagesFrom env cd stagesPrefix p 0 b.Stages s g
  (r.1, { b with Stages := r.2.1 }, r.2.2.1, r.2.2.2)

/-- The method `Build.Save`. -/
def Build.Save (env : Env σ ρ) (cd : StageCodec τ) (c : KVClient σ) (b : Build) (s : σ)
    (g : ρ) : Exit × Build × σ × ρ :=
  let buildsPrefix := env.pipelineNamespace ++ b.Pipeline ++ "/builds"
  let path := buildsPrefix ++ "/" ++ FormatInt b.Number
  let isNew : Bool :=
    (c.GetDir path s).2 != none || IsKeyNotFound (c.GetDir path s).2
  match c.Put (path ++ "/uuid") b.ID s with
  | (some err, s) => ((handleSaveError c path isNew err s).1, b, (handleSaveError c path isNew err s).2, g)
  | (none, s) =>
  match c.Put (path ++ "/status") b.Status s with
  | (some err, s) => ((handleSaveError c path isNew err s).1, b, (handleSaveError c path isNew err s).2, g)
  | (none, s) =>
  match c.Put (path ++ "/branch") b.Branch s with
  | (some err, s) => ((handleSaveError c path isNew err s).1, b, (handleSaveError c path isNew err s).2, g)
  | (none, s) =>
  match c.Put (path ++ "/commit") b.Commit s with
  | (some err, s) => ((handleSaveError c path isNew err s).1, b, (handleSaveError c path isNew err s).2, g)
  | (none, s) =>
  match c.Put (path ++ "/author") b.Author s with
  | (some err, s) => ((handleSaveError c path isNew err s).1, b, (handleSaveError c path isNew err s).2, g)
  | (none, s) =>
  match c.Put (path ++ "/event") b.Event s with
  | (some err, s) => ((handleSaveError c path isNew err s).1, b, (handleSaveError c path isNew err s).2, g)
  | (none, s) =>
  match c.Put (path ++ "/clone-url") b.CloneURL s with
  | (some err, s) => ((handleSaveError c path isNew err s).1, b, (handleSaveError c path isNew err s).2, g)
  | (none, s) =>
  match c.Put (path ++ "/pipeline") b.Pipeline s with
  | (some err, s) => ((handleSaveError c path isNew err s).1, b, (handleSaveError c path isNew err s).2, g)
  | (none, s) =>
  match c.Put (path ++ "/created") (FormatInt b.Created) s with
  | (some err, s) => ((handleSaveError c path isNew err s).1, b, (handleSaveError c path isNew err s).2, g)
  | (none, s) =>
  match c.Put (path ++ "/started") (FormatInt b.Started) s with
  | (some err, s) => ((handleSaveError c path isNew err s).1, b, (handleSaveError c path isNew err s).2, g)
  | (none, s) =>
  match c.Put (path ++ "/finished") (FormatInt b.Finished) s with
  | (some err, s) => ((handleSaveError c path isNew err s).1, b, (handleSaveError c path isNew err s).2, g)
  | (none, s) =>
  match c.PutInt (path ++ "/number") b.Number s with
  | (some err, s) => ((handleSaveError c path isNew err s).1, b, (handleSaveError c path isNew err s).2, g)
  | (none, s) =>
  match c.PutInt (path ++ "/current-stage") b.CurrentStage s with
  | (some err, s) => ((handleSaveError c path isNew err s).1, b, (handleSaveError c path isNew err s).2, g)
  | (none, s) =>
  if isNew then
    match Build.CreateStages env cd b s g with
    | (Exit.ok, b1, s1, g1) => (Exit.ok, b1, s1, g1)
    | (Exit.panic, b1, s1, g1) => (Exit.panic, b1, s1, g1)
    | (Exit.error err, b1, s1, g1) =>
      ((handleSaveError c path isNew err s1).1, b1, (handleSaveError c path isNew err s1).2, g1)
  else (Exit.ok, b, s, g)

/-- The method `Build.GetStages`: the returned slice (`none` is the nil
slice), the returned error, and the build, whose `Stages` it may assign. -/
def Build.GetStages (env : Env σ ρ) (c : KVClient σ) (b : Build) (s : σ) :
    (Option (List Stage) × Option Err) × Build :=
  let stagesPrefix :=
    env.pipelineNamespace ++ b.Pipeline ++ "/builds/" ++ FormatInt b.Number ++ "/stages"
  match c.GetDir stagesPrefix s with
  | (_, some err) =>
    if IsKeyNotFound (some err) then ((some [], none), b) else ((none, some err), b)
  | (stageDirs, none) =>
    let stages := stageDirs.map (fun pair => env.getStage pair.Key s)
    ((some stages, none), { b with Stages := stages })

/-- The method `Build.GetStage`. -/
def Build.GetStage (env : Env σ ρ) (c : KVClient σ) (b : Build) (idx : Int) (s : σ) :
    Option Stage × Bool :=
  let path :=
    env.pipelineNamespace ++ b.Pipeline ++ "/builds/" ++ FormatInt b.Number ++ "/stages/"
      ++ FormatInt idx
  if (c.GetDir path s).2 != none || IsKeyNotFound (c.GetDir path s).2 then (none, false)
  else (some (env.getStage path s), true)

/-- The function `getBuild`. -/
def getBuild (env : Env σ ρ) (c : KVClient σ) (path : String) (s : σ) : Build :=
  let b : Build :=
    { ID := (c.Get (path ++ "/uuid") s).1
      Status := (c.Get (path ++ "/status") s).1
      Branch := (c.Get (path ++ "/branch") s).1
      Commit := (c.Get (path ++ "/commit") s).1
      Author := (c.Get (path ++ "/author") s).1
      Event := (c.Get (path ++ "/event") s).1
      CloneURL := (c.Get (path ++ "/clone-url") s).1
      Pipeline := (c.Get (path ++ "/pipeline") s).1
      Number := (c.GetInt (path ++ "/number") s).1
      CurrentStage := (c.GetInt (path ++ "/current-stage") s).1
      Created := (ParseInt (c.Get (path ++ "/created") s).1).1
      Started := (ParseInt (c.Get (path ++ "/started") s).1).1
      Finished := (ParseInt (c.Get (path ++ "/finished") s).1).1
      Stages := [] }
  (Build.GetStages env c b s).2

/-- The function `getBuildSummary`. -/
def getBuildSummary (c : KVClient σ) (path : String) (s : σ) : BuildSummary :=
  { ID := (c.Get (path ++ "/uuid") s).1
    Status := (c.Get (path ++ "/status") s).1
    Branch := (c.Get (path ++ "/branch") s).1
    Commit := (c.Get (path ++ "/commit") s).1
    Author := (c.Get (path ++ "/author") s).1
    Number := (c.GetInt (path ++ "/number") s).1
    Created := (ParseInt (c.Get (path ++ "/created") s).1).1
    Started := (ParseInt (c.Get (path ++ "/started") s).1).1
    Finished := (ParseInt (c.Get (path ++ "/finished") s).1).1 }

/-- The method `Build.Delete`. -/
def Build.Delete (env : Env σ ρ) (c : KVClient σ) (mc : MinioClient μ) (b : Build)
    (pipelinesID : String) (s : σ) (m : μ) : Option Err × σ × μ :=
  let path := env.pipelineNamespace ++ b.Pipeline ++ "/builds/" ++ FormatInt b.Number
  let buildsPrefix := "pipelines/" ++ pipelinesID ++ "/builds/" ++ FormatInt b.Number
  let bucket := "kontinuous"
  match c.DeleteTree path s with
  | (some err, s1) => (some err, s1, m)
  | (none, s1) =>
    match mc.DeleteTree bucket buildsPrefix m with
    | (some err, m1) => (some err, s1, m1)
    | (none, m1) => (none, s1, m1)

/-! ## The writes of `Save` as a sequence -/

/-- Runs writes in order and stops at the first one that reports an error. -/
def runWrites : List (σ → Option Err × σ) → σ → Option Err × σ
  | [], s => (none, s)
  | w :: ws, s =>
    match w s with
    | (some err, s1) => (some err, s1)
    | (none, s1) => runWrites ws s1

/-- The thirteen field writes of `Save`, in source order. -/
def Build.fieldWrites (c : KVClient σ) (b : Build) (path : String) :
    List (σ → Option Err × σ) :=
  [c.Put (path ++ "/uuid") b.ID, c.Put (path ++ "/status") b.Status,
   c.Put (path ++ "/branch") b.Branch, c.Put (path ++ "/commit") b.Commit,
   c.Put (path ++ "/author") b.Author, c.Put (path ++ "/event") b.Event,
   c.Put (path ++ "/clone-url") b.CloneURL, c.Put (path ++ "/pipeline") b.Pipeline,
   c.Put (path ++ "/created") (FormatInt b.Created),
   c.Put (path ++ "/started") (FormatInt b.Started),
   c.Put (path ++ "/finished") (FormatInt b.Finished),
   c.PutInt (path ++ "/number") b.Number,
   c.PutInt (path ++ "/current-stage") b.CurrentStage]

/-- The keys of the thirteen field writes of `Save`, in source order. -/
def fieldKeys (path : String) : List String :=
  [path ++ "/uuid", path ++ "/status", path ++ "/branch", path ++ "/commit",
   path ++ "/author", path ++ "/event", path ++ "/clone-url", path ++ "/pipeline",
   path ++ "/created", path ++ "/started", path ++ "/finished", path ++ "/number",
   path ++ "/current-stage"]

/-- A write touches the store at the key `k` only, whether it succeeds or not. -/
def TouchesOnly (view : σ → String → Option String) (w : σ → Option Err × σ) (k : String) :
    Prop :=
  ∀ s k', k' ≠ k → view (w s).2 k' = view s k'

/-- The value of `path` in `Save`. -/
def Build.path (env : Env σ ρ) (b : Build) : String :=
  env.pipelineNamespace ++ b.Pipeline ++ "/builds" ++ "/" ++ FormatInt b.Number

/-- The value of `isNew` in `Save` after the probe. -/
def Build.probeNew (env : Env σ ρ) (c : KVClient σ) (b : Build) (s : σ) : Bool :=
  (c.GetDir (b.path env) s).2 != none || IsKeyNotFound (c.GetDir (b.path env) s).2

/-- The Go types of the numeric fields of a build: all fit 64 bits. -/
def Build.WF (b : Build) : Prop :=
  isInt64 b.Number ∧ isInt64 b.CurrentStage ∧ isInt64 b.Created ∧ isInt64 b.Started ∧
    isInt64 b.Finished

instance (b : Build) : Decidable b.WF := by
  unfold Build.WF; exact inferInstance

/-- A metadata store that behaves as a faithful key-value map on which all
writes succeed: `view` is the content of the store, a write sets its key and
nothing else, a read returns what the key holds (integers travel as decimal
strings), and saving a stage succeeds and writes below its prefix only. -/
structure FaithfulStore (env : Env σ ρ) (c : KVClient σ) (view : σ → String → Option String) :
    Prop where
  put_ok : ∀ k v s, (c.Put k v s).1 = none
  put_view : ∀ k v s, view (c.Put k v s).2 = Function.update (view s) k (some v)
  putInt_ok : ∀ k n s, (c.PutInt k n s).1 = none
  putInt_view :
    ∀ k n s, view (c.PutInt k n s).2 = Function.update (view s) k (some (FormatInt n))
  get_view : ∀ k v s, view s k = some v → (c.Get k s).1 = v
  getInt_view : ∀ k n s, isInt64 n → view s k = some (FormatInt n) → (c.GetInt k s).1 = n
  stageSave_ok : ∀ st pre s, (env.stageSave st pre s).1 = none
  stageSave_view :
    ∀ st pre s k, (∀ rest, k ≠ pre ++ "/" ++ rest) →
      view (env.stageSave st pre s).2 k = view s k

/-! ## Notification -/

/-- The type `notif.StageStatus`. -/
structure StageStatus where
  Name : String
  Status : String
deriving DecidableEq, Repr

/-- The implementations of `notif.AppNotifier` that `Notify` creates: the
Slack notifier is the only one. -/
inductive AppNotifier where
  | slack
deriving DecidableEq, Repr

/-- The services `Notify` calls, over the state `ν` of the world outside:
`PostMessage` of a notifier, and the lookup of a secret through the
Kubernetes client (`none` when it reports an error). -/
structure NotifyEnv (ν : Type) where
  PostMessage :
    AppNotifier → String → Int → String → Option (List StageStatus) → Vars → ν → Bool × ν
  GetSecret : String → String → ν → Option (List (String × String)) × ν

/-- The predicate `unicode.IsSpace`. -/
def isSpace (ch : Char) : Bool :=
  let n := ch.toNat
  decide (n = 9 ∨ n = 10 ∨ n = 11 ∨ n = 12 ∨ n = 13 ∨ n = 32 ∨ n = 133 ∨ n = 160 ∨ n = 5760
    ∨ (8192 ≤ n ∧ n ≤ 8202) ∨ n = 8232 ∨ n = 8233 ∨ n = 8239 ∨ n = 8287 ∨ n = 12288)

/-- The function `strings.TrimSpace`. -/
def TrimSpace (s : String) : String :=
  String.mk ((s.data.dropWhile isSpace).reverse.dropWhile isSpace).reverse

/-- The first loop of `getSecrets`: the secrets of the pipeline are looked up
one by one, a failed lookup is skipped, and the values found are collected
with the space around them trimmed. -/
def collectSecrets {ν : Type} (ne : NotifyEnv ν) (ns : String) :
    List String → VarMap → ν → VarMap × ν
  | [], secrets, w => (secrets, w)
  | secretName :: rest, secrets, w =>
    match ne.GetSecret ns secretName w with
    | (none, w1) => collectSecrets ne ns rest secrets w1
    | (some secretEnv, w1) =>
      collectSecrets ne ns rest
        (secretEnv.foldl (fun (m : VarMap) e => VarMap.set m e.1 (TrimSpace e.2)) secrets) w1

/-- The method `Build.getSecrets`.  Its only call passes a map of strings, on
which the assertion `value.(string)` holds; a name without a secret maps to
the empty string. -/
def Build.getSecrets {ν : Type} (ne : NotifyEnv ν) (pipelineSecrets : List String)
    (ns : String) (metadata : List (String × String)) (w : ν) : Vars × ν :=
  let r := collectSecrets ne ns pipelineSecrets [] w
  (metadata.map (fun e => (e.1, Value.str ((VarMap.get? r.1 e.2).getD ""))), r.2)

/-- The method `Build.getStatus`: nil when the stages cannot be listed. -/
def Build.getStatus (env : Env σ ρ) (c : KVClient σ) (b : Build) (s : σ) :
    Option (List StageStatus) × Build :=
  match Build.GetStages env c b s with
  | ((_, some _), b1) => (none, b1)
  | ((storedStages, none), b1) =>
    (some ((storedStages.getD []).map (fun stage => StageStatus.mk stage.Name stage.Status)),
      b1)

/-- The `switch` of the loop body of `Notify`: the notifier in use and the
metadata of the current entry after it. -/
def notifySwitch {ν : Type} (ne : NotifyEnv ν) (secrets : List String)
    (appNotifier : Option AppNotifier) (notifier : Notifier) (w : ν) :
    Option AppNotifier × Vars × ν :=
  if notifier.Type_ = "slack" then
    let r := Build.getSecrets ne secrets notifier.Namespace
      [("channel", "slackchannel"), ("url", "slackurl"), ("username", "slackuser")] w
    (some AppNotifier.slack, r.1, r.2)
  else (appNotifier, notifier.Metadata, w)

/-- The loop of `Notify`: the error returned, the notifier in use when the
loop ends, and the world. -/
def notifyLoop {ν : Type} (ne : NotifyEnv ν) (b : Build)
    (stageStatus : Option (List StageStatus)) (secrets : List String) :
    Option AppNotifier → List Notifier → ν → Option Err × Option AppNotifier × ν
  | appNotifier, [], w => (none, appNotifier, w)
  | appNotifier, notifier :: rest, w =>
    match notifySwitch ne secrets appNotifier notifier w with
    | (none, _, w1) => notifyLoop ne b stageStatus secrets none rest w1
    | (some a, metadata, w1) =>
      match ne.PostMessage a b.Pipeline b.Number b.Status stageStatus metadata w1 with
      | (false, w2) => (some (Err.other "Unable to post Message!"), some a, w2)
      | (true, w2) => notifyLoop ne b stageStatus secrets (some a) rest w2

/-- The method `Build.Notify`: the error returned, the build (whose `Stages`
the status query may assign) and the world. -/
def Build.Notify {ν : Type} (env : Env σ ρ) (ne : NotifyEnv ν) (c : KVClient σ) (b : Build)
    (s : σ) (w : ν) : Option Err × Build × ν :=
  let st := Build.getStatus env c b s
  let p := env.getPipeline (env.pipelineNamespace ++ b.Pipeline) s
  let r := notifyLoop ne b st.1 p.Secrets none p.Notifiers w
  (r.1, st.2, r.2.2)

/-- A notification environment that records every `PostMessage` call, as the
metadata passed and the result returned, next to the world of the
environment it wraps. -/
def NotifyEnv.recording {ν : Type} (ne : NotifyEnv ν) : NotifyEnv (ν × List (Vars × Bool)) where
  PostMessage a pipeline number status stageStatus metadata w :=
    ((ne.PostMessage a pipeline number status stageStatus metadata w.1).1,
      ((ne.PostMessage a pipeline number status stageStatus metadata w.1).2,
        w.2 ++ [(metadata, (ne.PostMessage a pipeline number status stageStatus metadata w.1).1)]))
  GetSecret ns name w := ((ne.GetSecret ns name w.1).1, ((ne.GetSecret ns name w.1).2, w.2))

/-- What the record of a send says about the notifier it was made for: the
send returned true; a notifier of a type other than `slack` was sent with its
own metadata; a `slack` notifier was sent with the three resolved entries. -/
def Dispatched (n : Notifier) (e : Vars × Bool) : Prop :=
  e.2 = true ∧ (n.Type_ ≠ "slack" → e.1 = n.Metadata) ∧
    (n.Type_ = "slack" → e.1.map Prod.fst = ["channel", "url", "username"])

end Operations

/-! ## A reference store

An in-memory implementation of the store interface over a list of key-value
entries, with switchable faults.  It instantiates the general statements and
carries the concrete runs. -/

/-- Faults of the reference store: the keys whose writes fail, the error (if
any) a directory listing reports for a path, the paths whose deletion fails. -/
structure Faults where
  putFails : String → Bool
  dirError : String → Option Err
  deleteFails : String → Bool

/-- No faults at all. -/
def noFaults : Faults := ⟨fun _ => false, fun _ => none, fun _ => false⟩

/-- The state of the reference store: its entries, one per key. -/
abbrev MapStore := List (String × String)

/-- The content of the reference store at a key. -/
def MapStore.view (s : MapStore) (k : String) : Option String :=
  (s.find? (fun e => e.1 = k)).map Prod.snd

/-- Whether `key` lies strictly below the directory `dir`. -/
def under (dir key : String) : Bool := (dir.data ++ ['/']).isPrefixOf key.data

/-- Removes repeated keys, keeping first occurrences. -/
def dedupKeys : List String → List String
  | [] => []
  | k :: ks => k :: (dedupKeys ks).filter (fun x => x ≠ k)

/-- The child of `dir` through which `key` (a key below `dir`) is reached. -/
def childOf (dir key : String) : String :=
  dir ++ "/" ++ String.mk ((key.data.drop (dir.data.length + 1)).takeWhile (fun ch => ch ≠ '/'))

/-- The listing of a directory: its children, in order of first appearance. -/
def MapStore.children (s : MapStore) (dir : String) : List KVPair :=
  (dedupKeys ((s.filter (fun e => under dir e.1)).map (fun e => childOf dir e.1))).map
    (fun k => KVPair.mk k ((MapStore.view s k).getD ""))

/-- The reference store as a `KVClient`. -/
def mapClient (f : Faults) : KVClient MapStore where
  Get k s :=
    match MapStore.view s k with
    | some v => (v, none)
    | none => ("", some Err.keyNotFound)
  GetInt k s :=
    match MapStore.view s k with
    | some v =>
      match ParseInt v with
      | (n, none) => (n, none)
      | (_, some _) => (0, some (Err.other "strconv.Atoi"))
    | none => (0, some Err.keyNotFound)
  GetDir dir s :=
    match f.dirError dir with
    | some e => ([], some e)
    | none =>
      match MapStore.children s dir with
      | [] => ([], some Err.keyNotFound)
      | ch => (ch, none)
  Put k v s :=
    if f.putFails k then (some (Err.other "put failed"), s)
    else (none, (k, v) :: s.filter (fun e => e.1 ≠ k))
  PutInt k n s :=
    if f.putFails k then (some (Err.other "put failed"), s)
    else (none, (k, FormatInt n) :: s.filter (fun e => e.1 ≠ k))
  DeleteTree dir s :=
    if f.deleteFails dir then (some (Err.other "delete failed"), s)
    else (none, s.filter (fun e => !(under dir e.1) && e.1 ≠ dir))

/-- A reference environment over the reference store: stages are stored
under `<prefix>/<index>/...`, identifiers are drawn from a counter, and every
pipeline is `p`. -/
def refEnv (f : Faults) (p : Pipeline) : Env MapStore Nat where
  pipelineNamespace := "pipelines/"
  BuildPending := "PENDING"
  generateUUID g := ("uuid-" ++ FormatInt g, g + 1)
  getPipeline _ _ := p
  getStage path s :=
    { ID := ((mapClient f).Get (path ++ "/uuid") s).1
      Index := ((mapClient f).GetInt (path ++ "/index") s).1
      Name := ((mapClient f).Get (path ++ "/name") s).1
      Type_ := ((mapClient f).Get (path ++ "/type") s).1
      Status := ((mapClient f).Get (path ++ "/status") s).1
      Started := (ParseInt ((mapClient f).Get (path ++ "/started") s).1).1
      Finished := (ParseInt ((mapClient f).Get (path ++ "/finished") s).1).1
      Vars := [] }
  stageSave st pre s :=
    runWrites
      [(mapClient f).Put (pre ++ "/" ++ (FormatInt st.Index ++ "/uuid")) st.ID,
       (mapClient f).PutInt (pre ++ "/" ++ (FormatInt st.Index ++ "/index")) st.Index,
       (mapClient f).Put (pre ++ "/" ++ (FormatInt st.Index ++ "/name")) st.Name,
       (mapClient f).Put (pre ++ "/" ++ (FormatInt st.Index ++ "/type")) st.Type_,
       (mapClient f).Put (pre ++ "/" ++ (FormatInt st.Index ++ "/status")) st.Status,
       (mapClient f).Put (pre ++ "/" ++ (FormatInt st.Index ++ "/started"))
         (FormatInt st.Started),
       (mapClient f).Put (pre ++ "/" ++ (FormatInt st.Index ++ "/finished"))
         (FormatInt st.Finished)] s

/-! ## The codec of the Go libraries

`encoding/json` and `text/template` are embedded on a fragment: JSON texts
built from objects, strings with the simple escapes, integer literals,
booleans and `null`; templates whose actions are all plain field references
`{{.name}}`.  Whatever lies outside the fragment is handed to an `Oracle`,
which stands for the rest of the two libraries and of `sprig`; statements
proved below hold for every oracle. -/

/-- The rest of `text/template`, `sprig` and `encoding/json`. -/
structure Oracle (θ : Type) where
  Parse : String → Option θ
  Execute : θ → VarMap → Except Err String
  Unmarshal : String → Stage → Stage

/-- The hexadecimal digit of `n < 16`, as `encoding/json` writes it. -/
def hexDigit (n : Nat) : Char :=
  if n < 10 then Char.ofNat (48 + n) else Char.ofNat (87 + n)

/-- The encoding of one character inside a JSON string, with the HTML escapes
that `json.Marshal` applies. -/
def encodeChar (ch : Char) : List Char :=
  if ch = '"' then ['\\', '"']
  else if ch = '\\' then ['\\', '\\']
  else if ch = '\n' then ['\\', 'n']
  else if ch = '\r' then ['\\', 'r']
  else if ch = '\t' then ['\\', 't']
  else if ch.toNat < 32 ∨ ch = '<' ∨ ch = '>' ∨ ch = '&' then
    ['\\', 'u', '0', '0', hexDigit (ch.toNat / 16), hexDigit (ch.toNat % 16)]
  else if ch.toNat = 8232 then ['\\', 'u', '2', '0', '2', '8']
  else if ch.toNat = 8233 then ['\\', 'u', '2', '0', '2', '9']
  else [ch]

/-- The JSON encoding of a string. -/
def encodeString (s : String) : List Char :=
  '"' :: (s.data.flatMap encodeChar ++ ['"'])

/-- The JSON encoding of a value held in a `Vars` map. -/
def encodeValue : Value → List Char
  | Value.str s => encodeString s
  | Value.int n => (FormatInt n).data
  | Value.bool true => "true".data
  | Value.bool false => "false".data
  | Value.null => "null".data

/-- The order of strings by their characters, which is their byte order. -/
def leChars : List Char → List Char → Bool
  | [], _ => true
  | _ :: _, [] => false
  | a :: as, b :: bs => if a.toNat < b.toNat then true else if a = b then leChars as bs else false

/-- Insertion into a list of entries sorted by key. -/
def insertEntry (e : String × Value) : List (String × Value) → List (String × Value)
  | [] => [e]
  | x :: xs => if leChars e.1.data x.1.data then e :: x :: xs else x :: insertEntry e xs

/-- The entries of a map in the order `json.Marshal` writes them: sorted by key. -/
def sortEntries : List (String × Value) → List (String × Value)
  | [] => []
  | e :: es => insertEntry e (sortEntries es)

/-- The members of an encoded map, comma separated. -/
def encodeMembers : List (String × Value) → List Char
  | [] => []
  | [e] => encodeString e.1 ++ ':' :: encodeValue e.2
  | e :: es => encodeString e.1 ++ ':' :: encodeValue e.2 ++ ',' :: encodeMembers es

/-- The JSON encoding of a `Vars` map; the empty map is the nil map. -/
def encodeVars (v : Vars) : List Char :=
  match v with
  | [] => "null".data
  | _ => '{' :: (encodeMembers (sortEntries v) ++ ['}'])

/-- Modelled from the spec: `json.Marshal(stage)` for the record `Stage`; the
JSON names of the fields are not at hand and are taken to be the lower-case
attribute names of the specification. -/
def marshalStage (st : Stage) : String :=
  String.mk
    ("\x7b\"id\":".data ++ encodeString st.ID ++ ",\"index\":".data ++ (FormatInt st.Index).data
      ++ ",\"name\":".data ++ encodeString st.Name ++ ",\"type\":".data ++ encodeString st.Type_
      ++ ",\"status\":".data ++ encodeString st.Status
      ++ ",\"started\":".data ++ (FormatInt st.Started).data
      ++ ",\"finished\":".data ++ (FormatInt st.Finished).data
      ++ ",\"vars\":".data ++ encodeVars st.Vars ++ ['}'])

/-! ### Templates -/

/-- A piece of a template of the fragment: literal text or `{{.name}}`. -/
inductive Seg where
  | text (s : List Char)
  | field (name : String)
deriving DecidableEq, Repr

/-- What the scan of a template text finds. -/
inductive Lexed where
  | segs (l : List Seg)
  | unclosed
  | beyond
deriving DecidableEq, Repr

/-- Splits at the first `}}`: the text before it and the text after it. -/
def splitClose : List Char → Option (List Char × List Char)
  | [] => none
  | '}' :: '}' :: rest => some ([], rest)
  | ch :: rest =>
    match splitClose rest with
    | some (body, tl) => some (ch :: body, tl)
    | none => none

/-- Drops the blanks at both ends of an action. -/
def trimBlanks (body : List Char) : List Char :=
  ((body.dropWhile (fun ch => ch = ' ')).reverse.dropWhile (fun ch => ch = ' ')).reverse

/-- Whether a character may occur in a field name. -/
def isNameChar (ch : Char) : Bool :=
  ch.isAlphanum || ch = '_'

/-- The field an action refers to, when the action is `.name`. -/
def fieldOf (body : List Char) : Option String :=
  match trimBlanks body with
  | '.' :: ch :: rest =>
    if (ch.isAlpha || ch = '_') && rest.all isNameChar then some (String.mk (ch :: rest))
    else none
  | _ => none

/-- Prepends a character of literal text to scanned segments. -/
def consText (ch : Char) : Lexed → Lexed
  | Lexed.segs (Seg.text t :: l) => Lexed.segs (Seg.text (ch :: t) :: l)
  | Lexed.segs l => Lexed.segs (Seg.text [ch] :: l)
  | r => r

/-- The scan of a template text.  Text runs up to the next `{{`; an action
runs up to the next `}}`.  A `{{` with no `}}` after it is a parse error of
`text/template` (`unclosed`); an action other than a field reference puts
the template outside the fragment (`beyond`). -/
def lexTemplate : Nat → List Char → Lexed
  | 0, _ => Lexed.beyond
  | _ + 1, [] => Lexed.segs []
  | fuel + 1, '{' :: '{' :: rest =>
    match splitClose rest with
    | none => Lexed.unclosed
    | some (body, tl) =>
      match fieldOf body with
      | none => Lexed.beyond
      | some name =>
        match lexTemplate fuel tl with
        | Lexed.segs l => Lexed.segs (Seg.field name :: l)
        | r => r
  | fuel + 1, ch :: rest => consText ch (lexTemplate fuel rest)

/-- The execution of a template of the fragment on a `map[string]string`: a
field reference prints the value of the key, or `<no value>` without it. -/
def execSegs (vars : VarMap) : List Seg → List Char
  | [] => []
  | Seg.text t :: l => t ++ execSegs vars l
  | Seg.field name :: l => ((vars.get? name).getD "<no value>").data ++ execSegs vars l

/-! ### JSON decoding -/

/-- A JSON value of the fragment; a number keeps its literal, an object keeps
its members in order, repeated names included. -/
inductive Json where
  | null
  | bool (b : Bool)
  | num (raw : List Char)
  | str (s : List Char)
  | obj (members : List (List Char × Json))

/-- Drops JSON white space. -/
def skipWs : List Char → List Char
  | ch :: rest => if ch = ' ' ∨ ch = '\t' ∨ ch = '\r' ∨ ch = '\n' then skipWs rest else ch :: rest
  | [] => []

/-- Reads the rest of a string literal, after its opening quote: the decoded
characters and the input after the closing quote.  Only the one-letter
escapes belong to the fragment. -/
def readString : List Char → Option (List Char × List Char)
  | [] => none
  | '"' :: rest => some ([], rest)
  | '\\' :: e :: rest =>
    let dec : Option Char :=
      if e = '"' then some '"' else if e = '\\' then some '\\' else if e = '/' then some '/'
      else if e = 'n' then some '\n' else if e = 'r' then some '\r'
      else if e = 't' then some '\t' else if e = 'b' then some (Char.ofNat 8)
      else if e = 'f' then some (Char.ofNat 12) else none
    match dec, readString rest with
    | some ch, some (s, tl) => some (ch :: s, tl)
    | _, _ => none
  | ch :: rest =>
    if ch.toNat < 32 then none
    else
      match readString rest with
      | some (s, tl) => some (ch :: s, tl)
      | none => none

/-- Reads an integer literal: an optional minus sign, then `0` or a digit
sequence without a leading zero, not continued by a fraction or exponent. -/
def readInt (input : List Char) : Option (List Char × List Char) :=
  let neg := input.head? = some '-'
  let body := if neg then input.drop 1 else input
  let digits := body.takeWhile Char.isDigit
  let tl := body.dropWhile Char.isDigit
  let lit := if neg then '-' :: digits else digits
  match digits, tl.head? with
  | [], _ => none
  | _, some '.' => none
  | _, some 'e' => none
  | _, some 'E' => none
  | '0' :: _ :: _, _ => none
  | _, _ => some (lit, tl)

/-- Reads the members of an object after its opening brace, given the reader
of values; `first` tells whether no member has been read yet. -/
def readMembers (readValue : List Char → Option (Json × List Char)) :
    Nat → Bool → List Char → Option (List (List Char × Json) × List Char)
  | 0, _, _ => none
  | fuel + 1, first, input =>
    match skipWs input with
    | '}' :: rest => if first then some ([], rest) else none
    | '"' :: rest =>
      match readString rest with
      | none => none
      | some (name, tl) =>
        match skipWs tl with
        | ':' :: tl1 =>
          match readValue tl1 with
          | none => none
          | some (v, tl2) =>
            match skipWs tl2 with
            | ',' :: tl3 =>
              match skipWs tl3 with
              | '"' :: _ =>
                match readMembers readValue fuel false tl3 with
                | some (ms, tl4) => some ((name, v) :: ms, tl4)
                | none => none
              | _ => none
            | '}' :: tl3 => some ([(name, v)], tl3)
            | _ => none
        | _ => none
    | _ => none

/-- Reads one JSON value of the fragment. -/
def readValue : Nat → List Char → Option (Json × List Char)
  | 0, _ => none
  | fuel + 1, input =>
    match skipWs input with
    | '{' :: rest =>
      match readMembers (readValue fuel) rest.length true rest with
      | some (ms, tl) => some (Json.obj ms, tl)
      | none => none
    | '"' :: rest =>
      match readString rest with
      | some (s, tl) => some (Json.str s, tl)
      | none => none
    | 't' :: 'r' :: 'u' :: 'e' :: rest => some (Json.bool true, rest)
    | 'f' :: 'a' :: 'l' :: 's' :: 'e' :: rest => some (Json.bool false, rest)
    | 'n' :: 'u' :: 'l' :: 'l' :: rest => some (Json.null, rest)
    | rest =>
      match readInt rest with
      | some (lit, tl) => some (Json.num lit, tl)
      | none => none

/-- Reads a whole text as one JSON object of the fragment. -/
def readObject (text : List Char) : Option (List (List Char × Json)) :=
  match readValue (text.length + 1) text with
  | some (Json.obj ms, tl) => if skipWs tl = [] then some ms else none
  | _ => none

/-- The assignment `m[key] = value` on a `Vars` map. -/
def setVar (m : Vars) (key : String) (value : Value) : Vars :=
  if m.any (fun e => e.1 = key) then m.map (fun e => if e.1 = key then (key, value) else e)
  else m ++ [(key, value)]

/-- Decodes the members of a JSON object into a `map[string]interface{}`
that already holds `m`; numbers and nested objects lie outside the fragment. -/
def decodeVars : List (List Char × Json) → Vars → Option Vars
  | [], m => some m
  | (name, Json.str s) :: ms, m => decodeVars ms (setVar m (String.mk name) (Value.str (String.mk s)))
  | (name, Json.bool b) :: ms, m => decodeVars ms (setVar m (String.mk name) (Value.bool b))
  | (name, Json.null) :: ms, m => decodeVars ms (setVar m (String.mk name) Value.null)
  | _ :: _, _ => none

/-- The field of `Stage` that a member name selects: the exact JSON name, or
else the name up to the case of its letters.  Names with characters outside
ASCII lie outside the fragment. -/
def fieldFor (name : List Char) : Option (Option String) :=
  if name.all (fun ch => ch.toNat < 128) then
    let lower := String.mk (name.map Char.toLower)
    if lower ∈ ["id", "index", "name", "type", "status", "started", "finished", "vars"] then
      some (some lower)
    else some none
  else none

/-- Decodes a JSON number into an `int` field: a literal that does not fit is
a type error, which leaves the field as it is. -/
def decodeInt (raw : List Char) (old : Int) : Int :=
  match ParseInt (String.mk raw) with
  | (n, none) => n
  | (_, some _) => old

/-- Decodes a JSON value into a string field: `null` and values of another
type leave the field as it is. -/
def decodeStr (v : Json) (old : String) : String :=
  match v with
  | Json.str s => String.mk s
  | _ => old

/-- Decodes a JSON value into an `int` field. -/
def decodeNum (v : Json) (old : Int) : Int :=
  match v with
  | Json.num raw => decodeInt raw old
  | _ => old

/-- Decodes the members of the top-level object into the stage, in order, so
that a repeated name overwrites what an earlier one has set; a name that
selects no field is skipped. -/
def decodeStage : List (List Char × Json) → Stage → Option Stage
  | [], st => some st
  | (name, v) :: ms, st =>
    match fieldFor name with
    | none => none
    | some none => decodeStage ms st
    | some (some f) =>
      if f = "id" then decodeStage ms { st with ID := decodeStr v st.ID }
      else if f = "index" then decodeStage ms { st with Index := decodeNum v st.Index }
      else if f = "name" then decodeStage ms { st with Name := decodeStr v st.Name }
      else if f = "type" then decodeStage ms { st with Type_ := decodeStr v st.Type_ }
      else if f = "status" then decodeStage ms { st with Status := decodeStr v st.Status }
      else if f = "started" then decodeStage ms { st with Started := decodeNum v st.Started }
      else if f = "finished" then decodeStage ms { st with Finished := decodeNum v st.Finished }
      else
        match v with
        | Json.null => decodeStage ms { st with Vars := [] }
        | Json.obj vs =>
          match decodeVars vs st.Vars with
          | some m => decodeStage ms { st with Vars := m }
          | none => none
        | _ => decodeStage ms st

/-- The scan of a whole template text. -/
def lexText (text : String) : Lexed :=
  lexTemplate (text.data.length + 1) text.data

/-- The stage that a text of the fragment decodes to, on top of `st`. -/
def decodeText (text : String) (st : Stage) : Option Stage :=
  match readObject text.data with
  | none => none
  | some ms => decodeStage ms st

/-- The codec of the Go libraries: the fragment, completed by an oracle. -/
def goCodec {θ : Type} (o : Oracle θ) : StageCodec (List Seg ⊕ θ) where
  Marshal := marshalStage
  Parse text :=
    match lexText text with
    | Lexed.segs l => some (Sum.inl l)
    | Lexed.unclosed => none
    | Lexed.beyond => (o.Parse text).map Sum.inr
  Execute t vars :=
    match t with
    | Sum.inl l => Except.ok (String.mk (execSegs vars l))
    | Sum.inr t' => o.Execute t' vars
  Unmarshal text st :=
    match decodeText text st with
    | some st' => st'
    | none => o.Unmarshal text st

/-- The stage that rendering and decoding produce when the serialized stage
is a template of the fragment and its rendering a JSON text of the fragment;
`none` when either leaves the fragment or the template has an unclosed
action. -/
def renderFragment (stage : Stage) (varMaps : List Vars) : Option Stage :=
  match lexText (marshalStage stage) with
  | Lexed.segs segs => decodeText (String.mk (execSegs (mergeVars varMaps) segs)) stage
  | _ => none

/-- Whether every stage that `createStagesFrom` prepares stays inside the
fragment when it is rendered. -/
def allInFragment {σ ρ : Type} (env : Env σ ρ) (p : Pipeline) :
    Nat → List Stage → ρ → Bool
  | _, [], _ => true
  | idx, stage :: rest, g =>
    (renderFragment
        { stage with
          Status := env.BuildPending, Index := (idx : Int) + 1, ID := (env.generateUUID g).1 }
        [p.Vars, stage.Vars]).isSome
      && allInFragment env p (idx + 1) rest (env.generateUUID g).2

/-- An oracle that rejects every template and decodes nothing; it only serves
to name a concrete codec. -/
def nullOracle : Oracle Unit where
  Parse _ := none
  Execute _ _ := Except.ok ""
  Unmarshal _ st := st

/-- The state of the reference artifact store: its objects, as pairs of a
bucket and an object name. -/
abbrev ObjectStore := List (String × String)

/-- The reference artifact store as a `MinioClient`; `fails` makes every
deletion fail without effect. -/
def mapMinio (fails : Bool) : MinioClient ObjectStore where
  DeleteTree bucket pre m :=
    if fails then (some (Err.other "minio unavailable"), m)
    else (none, m.filter (fun o => !(o.1 = bucket && pre.data.isPrefixOf o.2.data)))

/-- An artifact store client that records the deletions requested of it, as
pairs of a bucket and a prefix, next to the state of the client it wraps. -/
def MinioClient.recording {μ : Type} (mc : MinioClient μ) :
    MinioClient (μ × List (String × String)) where
  DeleteTree bucket pre m :=
    ((mc.DeleteTree bucket pre m.1).1, ((mc.DeleteTree bucket pre m.1).2, m.2 ++ [(bucket, pre)]))

/-! ## Concrete inputs -/

/-- A pipeline with one variable and no notifiers. -/
def demoPipeline : Pipeline :=
  { Vars := [("env", Value.str "prod")], Secrets := [], Notifiers := [] }

/-- A stage template. -/
def demoStage : Stage :=
  { ID := "", Index := 0, Name := "compile", Type_ := "command", Status := "",
    Started := 0, Finished := 0, Vars := [] }

/-- A build with extreme timestamps and one stage template. -/
def demoBuild : Build :=
  { ID := "b-7", Number := 7, Status := "RUNNING", Created := -9223372036854775808,
    Started := 9223372036854775807, Finished := 0, CurrentStage := 1, Branch := "main",
    Commit := "c0ffee", Author := "dev", Event := "push", CloneURL := "git://host/acme/app",
    Pipeline := "acme/app", Stages := [demoStage] }

/-- The store after `demoBuild` has been saved once and its stage has run:
the build directory exists and stage 1 is recorded as successful. -/
def existingStore : MapStore :=
  [("pipelines/acme/app/builds/7/stages/1/status", "SUCCESS"),
   ("pipelines/acme/app/builds/7/stages/1/uuid", "uuid-0"),
   ("pipelines/acme/app/builds/7/stages/1/index", "1"),
   ("pipelines/acme/app/builds/7/stages/1/name", "compile"),
   ("pipelines/acme/app/builds/7/stages/1/type", "command"),
   ("pipelines/acme/app/builds/7/stages/1/started", "0"),
   ("pipelines/acme/app/builds/7/stages/1/finished", "0"),
   ("pipelines/acme/app/builds/7/uuid", "b-7"),
   ("pipelines/acme/app/builds/7/status", "RUNNING"),
   ("pipelines/acme/app/builds/7/number", "7")]

/-- A store whose directory listing of the build path fails with an error
other than key-not-found, and which is sound otherwise. -/
def probeFault : Faults :=
  { putFails := fun _ => false
    dirError := fun p =>
      if p = "pipelines/acme/app/builds/7" then some (Err.other "request timed out") else none
    deleteFails := fun _ => false }

/-- A store on which the write of the build status fails and on which the
build directory cannot be deleted either. -/
def writeFault : Faults :=
  { putFails := fun k => k = "pipelines/acme/app/builds/7/status"
    dirError := fun _ => none
    deleteFails := fun p => p = "pipelines/acme/app/builds/7" }

/-- A store on which the write of the build status fails and which is sound
otherwise. -/
def statusFault : Faults :=
  { putFails := fun k => k = "pipelines/acme/app/builds/7/status"
    dirError := fun _ => none
    deleteFails := fun _ => false }

/-- A store on which every deletion of the build directory fails without
effect. -/
def deleteFault : Faults :=
  { putFails := fun _ => false
    dirError := fun _ => none
    deleteFails := fun p => p = "pipelines/acme/app/builds/7" }

/-- The artifacts of two builds of one pipeline. -/
def demoObjects : ObjectStore :=
  [("kontinuous", "pipelines/p-1/builds/7/logs/compile.log"),
   ("kontinuous", "pipelines/p-1/builds/8/logs/compile.log")]

/-- A stage template whose variables override the pipeline variable `env`
and use it in `image`. -/
def overrideStage : Stage :=
  { ID := "", Index := 0, Name := "deploy", Type_ := "docker", Status := "",
    Started := 0, Finished := 0,
    Vars := [("env", Value.str "staging"), ("image", Value.str "app:\x7b\x7b.env\x7d\x7d")] }

/-- The build `demoBuild` with `overrideStage` as its only stage template. -/
def overrideBuild : Build := { demoBuild with Stages := [overrideStage] }

/-- A pipeline one of whose variables holds text with JSON syntax in it. -/
def injectPipeline : Pipeline :=
  { Vars := [("n", Value.str "x\",\"index\":7,\"note\":\"y")], Secrets := [],
    Notifiers := [] }

/-- A stage template whose name refers to the pipeline variable `n`. -/
def injectStage : Stage :=
  { ID := "", Index := 0, Name := "\x7b\x7b.n\x7d\x7d", Type_ := "command", Status := "",
    Started := 0, Finished := 0, Vars := [] }

/-- The build `demoBuild` with two stage templates, the first being
`injectStage`. -/
def injectBuild : Build := { demoBuild with Stages := [injectStage, demoStage] }

/-- A store whose directory listing of stage 1 of `demoBuild` fails with an
error other than key-not-found, and which is sound otherwise. -/
def stageProbeFault : Faults :=
  { putFails := fun _ => false
    dirError := fun p =>
      if p = "pipelines/acme/app/builds/7/stages/1" then some (Err.other "request timed out")
      else none
    deleteFails := fun _ => false }

/-- A store in which the timestamps of build 7 hold texts that are not
decimal 64-bit integers: one just above the range, one with a letter after
many digits, one with a letter. -/
def staleStore : MapStore :=
  [("pipelines/acme/app/builds/7/created", "9223372036854775808"),
   ("pipelines/acme/app/builds/7/started", "99999999999999999999x"),
   ("pipelines/acme/app/builds/7/finished", "12x")]

/-- A notification environment over a counter of calls: the send succeeds
exactly for the channels listed in `good`, and there are no secrets. -/
def demoNotifyEnv (good : List String) : NotifyEnv Nat where
  PostMessage _ _ _ _ _ metadata w :=
    (good.any (fun ch => metadata.any (fun e => e.1 = "channel" && e.2 = Value.str ch)), w + 1)
  GetSecret _ _ w := (none, w)

/-- Three notifiers: a Slack one, and two of another type with their own
metadata. -/
def demoNotifiers : List Notifier :=
  [{ Type_ := "slack", Namespace := "acme", Metadata := [] },
   { Type_ := "mail", Namespace := "acme", Metadata := [("channel", Value.str "ops")] },
   { Type_ := "mail", Namespace := "acme", Metadata := [("channel", Value.str "dev")] }]

/-- A pipeline with the notifiers `demoNotifiers`. -/
def notifyPipeline : Pipeline := { Vars := [], Secrets := [], Notifiers := demoNotifiers }

/-- A stage template whose name opens a template action and never closes
it. -/
def unclosedStage : Stage :=
  { ID := "", Index := 0, Name := "\x7b\x7b", Type_ := "command", Status := "",
    Started := 0, Finished := 0, Vars := [] }

/-- The build `demoBuild` with `unclosedStage` as its only stage template. -/
def unclosedBuild : Build := { demoBuild with Stages := [unclosedStage] }

/-- Four notifiers: one of another type, then a Slack one, then two of
another type. -/
def dispatchNotifiers : List Notifier :=
  { Type_ := "mail", Namespace := "acme", Metadata := [("channel", Value.str "early")] }
    :: demoNotifiers

/-- A pipeline with the notifiers `dispatchNotifiers`. -/
def dispatchPipeline : Pipeline :=
  { Vars := [], Secrets := [], Notifiers := dispatchNotifiers }

/-! # Properties -/

/-! ## strconv: formatting and parsing are inverse -/
theorem digit_toNat (d : Nat) (h : d < 10) :
    48 ≤ (Char.ofNat (48 + d)).toNat ∧ (Char.ofNat (48 + d)).toNat ≤ 57 ∧
      (Char.ofNat (48 + d)).toNat - 48 = d := by
  interval_cases d <;> decide

theorem parseUintLoop_digit (d : Nat) (h : d < 10) (cs : List Char) (n : Nat)
    (hn : n * 10 + d ≤ maxUint64) :
    parseUintLoop (Char.ofNat (48 + d) :: cs) n = parseUintLoop cs (n * 10 + d) := by
  obtain ⟨h1, h2, h3⟩ := digit_toNat d h
  have hc : ¬ n ≥ cutoff10 := by
    simp only [cutoff10, maxUint64] at *
    omega
  simp only [parseUintLoop, h1, h2, h3, and_self, if_true, hc, if_false]
  have : ¬ n * 10 + d > maxUint64 := by omega
  simp [this]

theorem parseUintLoop_formatBits (fuel u : Nat) (acc : List Char) (hf : u ≤ fuel)
    (hu : u ≤ maxUint64) :
    parseUintLoop (formatBits fuel u acc) 0 = parseUintLoop acc u := by
  induction fuel generalizing u acc with
  | zero =>
    have : u = 0 := by omega
    subst this
    simp only [formatBits]
    rw [parseUintLoop_digit 0 (by decide) acc 0 (by simp [maxUint64])]
  | succ f ih =>
    simp only [formatBits]
    split
    · rw [ih (u / 10) _ (by omega) (by omega)]
      rw [parseUintLoop_digit (u % 10) (Nat.mod_lt _ (by decide)) acc (u / 10) (by omega)]
      congr 1
      omega
    · rw [parseUintLoop_digit u (by omega) acc 0 (by omega)]
      simp

theorem formatBits_ne_nil (fuel u : Nat) (acc : List Char) : formatBits fuel u acc ≠ [] := by
  induction fuel generalizing u acc with
  | zero => simp [formatBits]
  | succ f ih =>
    simp only [formatBits]
    split
    · exact ih _ _
    · simp

theorem ParseUint_formatBits (u : Nat) (hu : u ≤ maxUint64) :
    ParseUint (formatBits u u []) = (u, none) := by
  unfold ParseUint
  split
  · next h => exact absurd h (formatBits_ne_nil _ _ _)
  · rw [parseUintLoop_formatBits u u [] le_rfl hu]; rfl



theorem formatBits_head (fuel u : Nat) (acc : List Char) :
    ∃ d tl, d < 10 ∧ formatBits fuel u acc = Char.ofNat (48 + d) :: tl := by
  induction fuel generalizing u acc with
  | zero => exact ⟨u % 10, acc, Nat.mod_lt _ (by decide), rfl⟩
  | succ f ih =>
    simp only [formatBits]
    split
    · exact ih _ _
    · exact ⟨u, acc, by omega, rfl⟩

theorem ParseInt_unsigned (d : Nat) (hd : d < 10) (tl : List Char) :
    ParseInt (String.mk (Char.ofNat (48 + d) :: tl)) =
      parseIntSigned false (Char.ofNat (48 + d) :: tl) := by
  interval_cases d <;> simp [ParseInt]

theorem ParseInt_FormatInt (i : Int) (h : isInt64 i) : ParseInt (FormatInt i) = (i, none) := by
  obtain ⟨hlo, hhi⟩ := h
  unfold FormatInt
  split
  · next hneg =>
    have hu : i.natAbs ≤ maxUint64 := by simp only [maxUint64]; omega
    show parseIntSigned true (formatBits i.natAbs i.natAbs []) = _
    unfold parseIntSigned
    rw [ParseUint_formatBits _ hu]
    have h1 : ¬ 9223372036854775808 < i.natAbs := by omega
    have h2 : -((i.natAbs : Nat) : Int) = i := by omega
    simp [h1, -Int.natCast_natAbs, h2]
  · next hpos =>
    have hu : i.natAbs ≤ maxUint64 := by simp only [maxUint64]; omega
    obtain ⟨d, tl, hd, he⟩ := formatBits_head i.natAbs i.natAbs []
    rw [he, ParseInt_unsigned d hd tl, ← he]
    unfold parseIntSigned
    rw [ParseUint_formatBits _ hu]
    have h1 : ¬ 9223372036854775808 ≤ i.natAbs := by omega
    have h2 : ((i.natAbs : Nat) : Int) = i := by omega
    simp [h1, -Int.natCast_natAbs, h2]

/-! ## Strings and keys -/

section

variable {σ ρ τ μ : Type}

theorem str_append_right_inj (p a b : String) : p ++ a = p ++ b ↔ a = b := by
  constructor
  · intro h
    have := congrArg String.data h
    simp only [String.data_append, List.append_cancel_left_eq] at this
    exact String.ext this
  · rintro rfl; rfl

theorem path_eq (env : Env σ ρ) (b : Build) :
    env.pipelineNamespace ++ b.Pipeline ++ "/builds/" ++ FormatInt b.Number = b.path env := by
  simp only [Build.path, String.append_assoc]
  rfl

/-- A key directly below the build path is not below its `stages` directory,
unless its name starts like one. -/
theorem field_ne_stage (p f rest : String)
    (hf : ¬ ("/stages/".data).isPrefixOf f.data = true) :
    p ++ f ≠ p ++ "/stages" ++ "/" ++ rest := by
  intro h
  rw [String.append_assoc, String.append_assoc, str_append_right_inj] at h
  apply hf
  rw [h]
  simp [String.data_append, List.isPrefixOf]

/-! ## Sequences of writes -/

theorem runWrites_cons_ok (w : σ → Option Err × σ) (ws : List (σ → Option Err × σ)) (s : σ)
    (h : (w s).1 = none) : runWrites (w :: ws) s = runWrites ws (w s).2 := by
  simp only [runWrites]
  split
  · next e s1 heq => rw [heq] at h; cases h
  · next s1 heq => rw [heq]

theorem runWrites_cons_err (w : σ → Option Err × σ) (ws : List (σ → Option Err × σ)) (s : σ)
    (e : Err) (h : (w s).1 = some e) : runWrites (w :: ws) s = (some e, (w s).2) := by
  simp only [runWrites]
  split
  · next e' s1 heq => rw [heq] at h ⊢; cases h; rfl
  · next s1 heq => rw [heq] at h; cases h

theorem Save_eq_runWrites (env : Env σ ρ) (cd : StageCodec τ) (c : KVClient σ) (b : Build)
    (s : σ) (g : ρ) :
    Build.Save env cd c b s g =
      match runWrites (b.fieldWrites c (b.path env)) s with
      | (some err, s1) =>
        ((handleSaveError c (b.path env) (b.probeNew env c s) err s1).1, b,
          (handleSaveError c (b.path env) (b.probeNew env c s) err s1).2, g)
      | (none, s1) =>
        if b.probeNew env c s then
          match Build.CreateStages env cd b s1 g with
          | (Exit.ok, b1, s2, g1) => (Exit.ok, b1, s2, g1)
          | (Exit.panic, b1, s2, g1) => (Exit.panic, b1, s2, g1)
          | (Exit.error err, b1, s2, g1) =>
            ((handleSaveError c (b.path env) (b.probeNew env c s) err s2).1, b1,
              (handleSaveError c (b.path env) (b.probeNew env c s) err s2).2, g1)
        else (Exit.ok, b, s1, g) := by
  simp only [Build.Save, runWrites, Build.fieldWrites, Build.path, Build.probeNew]
  repeat' split
  all_goals simp_all

/-! ## Stage creation on a faithful store -/

theorem createStagesFrom_faithful (env : Env σ ρ) (cd : StageCodec τ) (c : KVClient σ)
    (view : σ → String → Option String) (hF : FaithfulStore env c view) (pre : String)
    (p : Pipeline) (stages : List Stage) (idx : Nat) (s : σ) (g : ρ) :
    (∀ e, (createStagesFrom env cd pre p idx stages s g).1 ≠ Exit.error e) ∧
      ∀ k, (∀ rest, k ≠ pre ++ "/" ++ rest) →
        view (createStagesFrom env cd pre p idx stages s g).2.2.1 k = view s k := by
  induction stages generalizing idx s g with
  | nil => simp [createStagesFrom]
  | cons st rest ih =>
    simp only [createStagesFrom]
    split
    · simp
    · next ex st2 hne heq =>
      have hok := hF.stageSave_ok st2 pre s
      have hv := hF.stageSave_view st2 pre s
      split
      · next e s1 hs => rw [hs] at hok; cases hok
      · next s1 hs =>
        rw [hs] at hv
        obtain ⟨ih1, ih2⟩ := ih (idx + 1) s1 (env.generateUUID g).2
        refine ⟨ih1, fun k hk => ?_⟩
        simp only
        rw [ih2 k hk, hv k hk]

end

section

variable {σ ρ τ μ : Type}

theorem fieldWrites_faithful (env : Env σ ρ) (c : KVClient σ)
    (view : σ → String → Option String) (hF : FaithfulStore env c view) (b : Build)
    (path : String) (s : σ) :
    (runWrites (b.fieldWrites c path) s).1 = none ∧
      view (runWrites (b.fieldWrites c path) s).2 =
        Function.update (Function.update (Function.update (Function.update (Function.update
        (Function.update (Function.update (Function.update (Function.update (Function.update
        (Function.update (Function.update (Function.update (view s)
          (path ++ "/uuid") (some b.ID))
          (path ++ "/status") (some b.Status))
          (path ++ "/branch") (some b.Branch))
          (path ++ "/commit") (some b.Commit))
          (path ++ "/author") (some b.Author))
          (path ++ "/event") (some b.Event))
          (path ++ "/clone-url") (some b.CloneURL))
          (path ++ "/pipeline") (some b.Pipeline))
          (path ++ "/created") (some (FormatInt b.Created)))
          (path ++ "/started") (some (FormatInt b.Started)))
          (path ++ "/finished") (some (FormatInt b.Finished)))
          (path ++ "/number") (some (FormatInt b.Number)))
          (path ++ "/current-stage") (some (FormatInt b.CurrentStage)) := by
  simp only [Build.fieldWrites]
  repeat rw [runWrites_cons_ok _ _ _ (by first | exact hF.put_ok _ _ _ | exact hF.putInt_ok _ _ _)]
  simp only [runWrites, hF.put_view, hF.putInt_view, and_self]

theorem Save_faithful (env : Env σ ρ) (cd : StageCodec τ) (c : KVClient σ)
    (view : σ → String → Option String) (hF : FaithfulStore env c view) (b : Build) (s : σ)
    (g : ρ) :
    (∀ e, (Build.Save env cd c b s g).1 ≠ Exit.error e) ∧
      ∀ k, (∀ rest, k ≠ b.path env ++ "/stages" ++ "/" ++ rest) →
        view (Build.Save env cd c b s g).2.2.1 k =
          view (runWrites (b.fieldWrites c (b.path env)) s).2 k := by
  rw [Save_eq_runWrites]
  obtain ⟨h1, -⟩ := fieldWrites_faithful env c view hF b (b.path env) s
  generalize runWrites (b.fieldWrites c (b.path env)) s = r at h1 ⊢
  obtain ⟨e, s1⟩ := r
  simp only at h1
  subst h1
  simp only
  split
  · obtain ⟨hc1, hc2⟩ := createStagesFrom_faithful env cd c view hF
      (env.pipelineNamespace ++ b.Pipeline ++ "/builds" ++ "/" ++ FormatInt b.Number ++ "/stages")
      (env.getPipeline (env.pipelineNamespace ++ b.Pipeline) s1) b.Stages 0 s1 g
    simp only [Build.CreateStages]
    split
    · next b1 s2 g1 heq =>
      simp only [Prod.mk.injEq] at heq
      obtain ⟨-, -, h3, -⟩ := heq
      refine ⟨by simp, fun k hk => ?_⟩
      simp only
      rw [← h3]
      exact hc2 k hk
    · next b1 s2 g1 heq =>
      simp only [Prod.mk.injEq] at heq
      obtain ⟨-, -, h3, -⟩ := heq
      refine ⟨by simp, fun k hk => ?_⟩
      simp only
      rw [← h3]
      exact hc2 k hk
    · next err b1 s2 g1 heq =>
      simp only [Prod.mk.injEq] at heq
      exact absurd heq.1 (hc1 err)
  · exact ⟨by simp, fun k _ => rfl⟩

end

section

variable {σ ρ τ μ : Type}

theorem GetStages_build (env : Env σ ρ) (c : KVClient σ) (b : Build) (s : σ) :
    ∃ stages, (Build.GetStages env c b s).2 = { b with Stages := stages } := by
  unfold Build.GetStages
  simp only
  split
  · split
    · exact ⟨b.Stages, rfl⟩
    · exact ⟨b.Stages, rfl⟩
  · exact ⟨_, rfl⟩

/-- C1. Round trip of `Save` and `getBuild`: on every metadata store that
behaves as a faithful key-value map on which all writes succeed, `Save`
reports no error and the build that `getBuild` reads back from
`<namespace><b.Pipeline>/builds/<b.Number>` has the `ID`, `Status`, `Branch`,
`Commit`, `Author`, `Event`, `CloneURL`, `Pipeline`, `Number`, `CurrentStage`,
`Created`, `Started` and `Finished` of `b`; the timestamps are any 64-bit
values, negative and extreme ones included. -/
theorem save_getBuild_roundtrip (env : Env σ ρ) (cd : StageCodec τ) (c : KVClient σ)
    (view : σ → String → Option String) (hF : FaithfulStore env c view) (b : Build)
    (hb : b.WF) (s : σ) (g : ρ) :
    (∀ e, (Build.Save env cd c b s g).1 ≠ Exit.error e) ∧
      (getBuild env c (env.pipelineNamespace ++ b.Pipeline ++ "/builds/" ++ FormatInt b.Number)
          (Build.Save env cd c b s g).2.2.1).ID = b.ID ∧
      (getBuild env c (env.pipelineNamespace ++ b.Pipeline ++ "/builds/" ++ FormatInt b.Number)
          (Build.Save env cd c b s g).2.2.1).Status = b.Status ∧
      (getBuild env c (env.pipelineNamespace ++ b.Pipeline ++ "/builds/" ++ FormatInt b.Number)
          (Build.Save env cd c b s g).2.2.1).Branch = b.Branch ∧
      (getBuild env c (env.pipelineNamespace ++ b.Pipeline ++ "/builds/" ++ FormatInt b.Number)
          (Build.Save env cd c b s g).2.2.1).Commit = b.Commit ∧
      (getBuild env c (env.pipelineNamespace ++ b.Pipeline ++ "/builds/" ++ FormatInt b.Number)
          (Build.Save env cd c b s g).2.2.1).Author = b.Author ∧
      (getBuild env c (env.pipelineNamespace ++ b.Pipeline ++ "/builds/" ++ FormatInt b.Number)
          (Build.Save env cd c b s g).2.2.1).Event = b.Event ∧
      (getBuild env c (env.pipelineNamespace ++ b.Pipeline ++ "/builds/" ++ FormatInt b.Number)
          (Build.Save env cd c b s g).2.2.1).CloneURL = b.CloneURL ∧
      (getBuild env c (env.pipelineNamespace ++ b.Pipeline ++ "/builds/" ++ FormatInt b.Number)
          (Build.Save env cd c b s g).2.2.1).Pipeline = b.Pipeline ∧
      (getBuild env c (env.pipelineNamespace ++ b.Pipeline ++ "/builds/" ++ FormatInt b.Number)
          (Build.Save env cd c b s g).2.2.1).Number = b.Number ∧
      (getBuild env c (env.pipelineNamespace ++ b.Pipeline ++ "/builds/" ++ FormatInt b.Number)
          (Build.Save env cd c b s g).2.2.1).CurrentStage = b.CurrentStage ∧
      (getBuild env c (env.pipelineNamespace ++ b.Pipeline ++ "/builds/" ++ FormatInt b.Number)
          (Build.Save env cd c b s g).2.2.1).Created = b.Created ∧
      (getBuild env c (env.pipelineNamespace ++ b.Pipeline ++ "/builds/" ++ FormatInt b.Number)
          (Build.Save env cd c b s g).2.2.1).Started = b.Started ∧
      (getBuild env c (env.pipelineNamespace ++ b.Pipeline ++ "/builds/" ++ FormatInt b.Number)
          (Build.Save env cd c b s g).2.2.1).Finished = b.Finished := by
  obtain ⟨hNum, hCur, hCr, hSt, hFi⟩ := hb
  obtain ⟨hne, hview⟩ := Save_faithful env cd c view hF b s g
  obtain ⟨-, hw⟩ := fieldWrites_faithful env c view hF b (b.path env) s
  rw [path_eq]
  generalize (Build.Save env cd c b s g).2.2.1 = s' at hview
  have key : ∀ f v, ¬ ("/stages/".data).isPrefixOf f.data = true →
      view (runWrites (b.fieldWrites c (b.path env)) s).2 (b.path env ++ f) = some v →
      view s' (b.path env ++ f) = some v := by
    intro f v hf hv
    rw [hview _ (fun rest => field_ne_stage _ _ rest hf)]
    exact hv
  refine ⟨hne, ?_⟩
  unfold getBuild
  obtain ⟨stages, hst⟩ := GetStages_build env c
    { ID := (c.Get (b.path env ++ "/uuid") s').1
      Status := (c.Get (b.path env ++ "/status") s').1
      Branch := (c.Get (b.path env ++ "/branch") s').1
      Commit := (c.Get (b.path env ++ "/commit") s').1
      Author := (c.Get (b.path env ++ "/author") s').1
      Event := (c.Get (b.path env ++ "/event") s').1
      CloneURL := (c.Get (b.path env ++ "/clone-url") s').1
      Pipeline := (c.Get (b.path env ++ "/pipeline") s').1
      Number := (c.GetInt (b.path env ++ "/number") s').1
      CurrentStage := (c.GetInt (b.path env ++ "/current-stage") s').1
      Created := (ParseInt (c.Get (b.path env ++ "/created") s').1).1
      Started := (ParseInt (c.Get (b.path env ++ "/started") s').1).1
      Finished := (ParseInt (c.Get (b.path env ++ "/finished") s').1).1
      Stages := [] } s'
  simp only [hst]
  refine ⟨?_, ?_, ?_, ?_, ?_, ?_, ?_, ?_, ?_, ?_, ?_, ?_, ?_⟩
  · exact hF.get_view _ _ _ (key _ _ (by decide)
      (by rw [hw]; simp [Function.update_apply, str_append_right_inj]))
  · exact hF.get_view _ _ _ (key _ _ (by decide)
      (by rw [hw]; simp [Function.update_apply, str_append_right_inj]))
  · exact hF.get_view _ _ _ (key _ _ (by decide)
      (by rw [hw]; simp [Function.update_apply, str_append_right_inj]))
  · exact hF.get_view _ _ _ (key _ _ (by decide)
      (by rw [hw]; simp [Function.update_apply, str_append_right_inj]))
  · exact hF.get_view _ _ _ (key _ _ (by decide)
      (by rw [hw]; simp [Function.update_apply, str_append_right_inj]))
  · exact hF.get_view _ _ _ (key _ _ (by decide)
      (by rw [hw]; simp [Function.update_apply, str_append_right_inj]))
  · exact hF.get_view _ _ _ (key _ _ (by decide)
      (by rw [hw]; simp [Function.update_apply, str_append_right_inj]))
  · exact hF.get_view _ _ _ (key _ _ (by decide)
      (by rw [hw]; simp [Function.update_apply, str_append_right_inj]))
  · exact hF.getInt_view _ _ _ hNum (key _ _ (by decide)
      (by rw [hw]; simp [Function.update_apply, str_append_right_inj]))
  · exact hF.getInt_view _ _ _ hCur (key _ _ (by decide)
      (by rw [hw]; simp [Function.update_apply, str_append_right_inj]))
  · rw [hF.get_view _ (FormatInt b.Created) _ (key _ _ (by decide)
      (by rw [hw]; simp [Function.update_apply, str_append_right_inj])),
      ParseInt_FormatInt _ hCr]
  · rw [hF.get_view _ (FormatInt b.Started) _ (key _ _ (by decide)
      (by rw [hw]; simp [Function.update_apply, str_append_right_inj])),
      ParseInt_FormatInt _ hSt]
  · rw [hF.get_view _ (FormatInt b.Finished) _ (key _ _ (by decide)
      (by rw [hw]; simp [Function.update_apply, str_append_right_inj])),
      ParseInt_FormatInt _ hFi]

end

/-! ## The reference store is faithful -/

theorem view_filter_ne (s : MapStore) (k k' : String) :
    MapStore.view (s.filter (fun e => e.1 ≠ k)) k' = if k' = k then none else MapStore.view s k' := by
  unfold MapStore.view
  induction s with
  | nil => simp
  | cons e rest ih =>
    by_cases h1 : e.1 = k
    · rw [List.filter_cons_of_neg (by simpa using h1), ih]
      by_cases h2 : k' = k
      · simp only [h2, if_true]
      · have h3 : ¬ e.1 = k' := fun h => h2 (h ▸ h1)
        simp only [h2, if_false, List.find?_cons, h3, decide_False]
    · rw [List.filter_cons_of_pos (by simpa using h1)]
      by_cases h3 : e.1 = k'
      · have h2 : ¬ k' = k := fun h => h1 (h3.trans h)
        simp only [h2, if_false, List.find?_cons, h3, decide_True]
      · simp only [List.find?_cons, h3, decide_False, ih]

theorem view_put (s : MapStore) (k v : String) :
    MapStore.view ((k, v) :: s.filter (fun e => e.1 ≠ k)) =
      Function.update (MapStore.view s) k (some v) := by
  funext k'
  by_cases h : k' = k
  · subst h
    simp [MapStore.view, List.find?_cons]
  · have h' : ¬ k = k' := fun e => h e.symm
    have h2 := view_filter_ne s k k'
    rw [if_neg h] at h2
    rw [Function.update_apply, if_neg h, ← h2]
    simp only [MapStore.view, List.find?_cons, h', decide_False]

theorem mapClient_put (k v : String) (s : MapStore) :
    (mapClient noFaults).Put k v s = (none, (k, v) :: s.filter (fun e => e.1 ≠ k)) := rfl

theorem mapClient_putInt (k : String) (n : Int) (s : MapStore) :
    (mapClient noFaults).PutInt k n s =
      (none, (k, FormatInt n) :: s.filter (fun e => e.1 ≠ k)) := rfl

theorem refStore_faithful (p : Pipeline) :
    FaithfulStore (refEnv noFaults p) (mapClient noFaults) MapStore.view where
  put_ok k v s := rfl
  put_view k v s := by rw [mapClient_put]; exact view_put s k v
  putInt_ok k n s := rfl
  putInt_view k n s := by rw [mapClient_putInt]; exact view_put s k _
  get_view k v s h := by simp [mapClient, h]
  getInt_view k n s hn h := by simp [mapClient, h, ParseInt_FormatInt n hn]
  stageSave_ok st pre s := by
    simp only [refEnv]
    repeat rw [runWrites_cons_ok _ _ _ rfl]
    rfl
  stageSave_view st pre s k hk := by
    simp only [refEnv]
    repeat rw [runWrites_cons_ok _ _ _ rfl]
    simp only [runWrites, mapClient_put, mapClient_putInt, view_put,
      Function.update_apply, hk, if_false]

/-- Witness of C1: the reference store is faithful, and the smallest 64-bit
timestamp of `demoBuild` comes back from a save on the empty store. -/
theorem save_getBuild_roundtrip_witness :
    demoBuild.WF ∧
      FaithfulStore (refEnv noFaults demoPipeline) (mapClient noFaults) MapStore.view ∧
      (getBuild (refEnv noFaults demoPipeline) (mapClient noFaults)
          ((refEnv noFaults demoPipeline).pipelineNamespace ++ demoBuild.Pipeline ++ "/builds/"
            ++ FormatInt demoBuild.Number)
          (Build.Save (refEnv noFaults demoPipeline) (goCodec nullOracle) (mapClient noFaults)
            demoBuild [] 0).2.2.1).Created = -9223372036854775808 :=
  ⟨by decide, refStore_faithful demoPipeline,
    (save_getBuild_roundtrip (refEnv noFaults demoPipeline) (goCodec nullOracle)
      (mapClient noFaults) MapStore.view (refStore_faithful demoPipeline) demoBuild
      (by decide) [] 0).2.2.2.2.2.2.2.2.2.2.2.1⟩


/-! ## C2: stages and the existence probe -/

set_option maxRecDepth 100000 in
/-- C2 (the code at the failing input). The directory of `demoBuild` exists
in `existingStore` and stage 1 is recorded there as successful under the
identifier `uuid-0`; the existence probe fails with an error other than
key-not-found.  `Save` then takes the build for a new one, runs
`CreateStages`, and the stage keys are overwritten: the status is back to
pending and the identifier is a fresh one. -/
theorem save_probe_error_recreates_stages :
    ((mapClient noFaults).GetDir "pipelines/acme/app/builds/7" existingStore).2 = none ∧
      ((mapClient probeFault).GetDir "pipelines/acme/app/builds/7" existingStore).2 =
        some (Err.other "request timed out") ∧
      MapStore.view existingStore "pipelines/acme/app/builds/7/stages/1/status" =
        some "SUCCESS" ∧
      MapStore.view existingStore "pipelines/acme/app/builds/7/stages/1/uuid" =
        some "uuid-0" ∧
      (Build.Save (refEnv probeFault demoPipeline) (goCodec nullOracle) (mapClient probeFault)
        demoBuild existingStore 5).1 = Exit.ok ∧
      MapStore.view
        (Build.Save (refEnv probeFault demoPipeline) (goCodec nullOracle) (mapClient probeFault)
          demoBuild existingStore 5).2.2.1 "pipelines/acme/app/builds/7/stages/1/status" =
        some "PENDING" ∧
      MapStore.view
        (Build.Save (refEnv probeFault demoPipeline) (goCodec nullOracle) (mapClient probeFault)
          demoBuild existingStore 5).2.2.1 "pipelines/acme/app/builds/7/stages/1/uuid" =
        some "uuid-5" := by
  decide

/-! ## C3: failure handling of `Save` -/

section

variable {σ ρ τ μ : Type}

theorem runWrites_append_fail (pre post : List (σ → Option Err × σ))
    (w : σ → Option Err × σ) (s s0 s1 : σ) (e : Err) (hpre : runWrites pre s = (none, s0))
    (hw : w s0 = (some e, s1)) : runWrites (pre ++ w :: post) s = (some e, s1) := by
  induction pre generalizing s with
  | nil =>
    simp only [runWrites, Prod.mk.injEq, true_and] at hpre
    subst hpre
    simp only [List.nil_append, runWrites, hw]
  | cons v vs ih =>
    simp only [List.cons_append, runWrites] at hpre ⊢
    split at hpre
    · cases hpre
    · next s2 heq => exact ih s2 hpre

theorem runWrites_frame (view : σ → String → Option String) :
    ∀ (ws : List (σ → Option Err × σ)) (ks : List String),
      List.Forall₂ (TouchesOnly view) ws ks →
        ∀ s k', k' ∉ ks → view (runWrites ws s).2 k' = view s k'
  | [], [], _, s, k', _ => rfl
  | w :: ws, k :: ks, h, s, k', hk => by
    obtain ⟨h1, h2⟩ := List.forall₂_cons.mp h
    have hne : k' ≠ k := fun e => hk (e ▸ List.mem_cons_self _ _)
    have hni : k' ∉ ks := fun m => hk (List.mem_cons_of_mem _ m)
    have hw := h1 s k' hne
    simp only [runWrites]
    split
    · next e s1 heq => rw [heq] at hw; exact hw
    · next s1 heq =>
      rw [heq] at hw
      rw [runWrites_frame view ws ks h2 s1 k' hni, hw]

theorem fieldWrites_touch (c : KVClient σ) (view : σ → String → Option String) (b : Build)
    (path : String)
    (hput : ∀ k v, TouchesOnly view (c.Put k v) k)
    (hputInt : ∀ k n, TouchesOnly view (c.PutInt k n) k) :
    List.Forall₂ (TouchesOnly view) (b.fieldWrites c path) (fieldKeys path) := by
  simp only [Build.fieldWrites, fieldKeys, List.forall₂_cons, List.Forall₂.nil, and_true]
  exact ⟨hput _ _, hput _ _, hput _ _, hput _ _, hput _ _, hput _ _, hput _ _, hput _ _,
    hput _ _, hput _ _, hput _ _, hputInt _ _, hputInt _ _⟩

end

theorem mapClient_deleteTree_clears (f : Faults) (p : String) (s : MapStore)
    (hdel : f.deleteFails p = false) (hdir : f.dirError p = none) :
    (∀ k, under p k = true → MapStore.view ((mapClient f).DeleteTree p s).2 k = none) ∧
      (mapClient f).GetDir p ((mapClient f).DeleteTree p s).2 = ([], some Err.keyNotFound) := by
  have hs : ((mapClient f).DeleteTree p s).2 =
      s.filter (fun e => !(under p e.1) && e.1 ≠ p) := by
    simp [mapClient, hdel]
  rw [hs]
  constructor
  · intro k hk
    unfold MapStore.view
    rw [List.find?_filter]
    have : List.find? (fun a => (!under p a.1 && decide (a.1 ≠ p)) && decide (a.1 = k)) s =
        none := by
      rw [List.find?_eq_none]
      intro x _
      by_cases hx : x.1 = k
      · simp [hx, hk]
      · simp [hx]
    simp only [Bool.decide_and, Bool.decide_eq_true] at this ⊢
    rw [this]; rfl
  · have hch : MapStore.children (s.filter (fun e => !(under p e.1) && e.1 ≠ p)) p = [] := by
      unfold MapStore.children
      have : List.filter (fun e => under p e.1)
          (List.filter (fun e => !(under p e.1) && e.1 ≠ p) s) = [] := by
        rw [List.filter_filter, List.filter_eq_nil_iff]
        intro x _
        by_cases hx : under p x.1 = true <;> simp [hx]
      rw [this]
      rfl
    simp only [mapClient, hdir, hch]

section

variable {σ ρ τ μ : Type}

/-- C3, as amended. A failing field write ends `Save`: whatever writes follow
it in the source are not performed, `CreateStages` is not run and the error
of that write is returned.  If the probe reported key-not-found (the build is
new), `DeleteTree` is then applied once to the build path, its own outcome
being ignored, and the store is left as that call leaves it; the same holds
when `CreateStages` fails.  If the probe succeeded (the build existed), there
is no deletion: the store is left as the failing write left it, and on a
store whose writes touch their own key only, every key not yet reached keeps
its value.  On the reference store a deletion that does not fail leaves no
key under the path, and `GetDir` on it reports key-not-found. -/
theorem save_failure_handling (env : Env σ ρ) (cd : StageCodec τ) (c : KVClient σ)
    (b : Build) (s : σ) (g : ρ) :
    (∀ pre w post e s0 s1,
        b.fieldWrites c (b.path env) = pre ++ w :: post →
        runWrites pre s = (none, s0) → w s0 = (some e, s1) →
          (Build.Save env cd c b s g).1 = Exit.error e ∧
          (IsKeyNotFound (c.GetDir (b.path env) s).2 = true →
            (Build.Save env cd c b s g).2.2.1 = (c.DeleteTree (b.path env) s1).2) ∧
          ((c.GetDir (b.path env) s).2 = none →
            (Build.Save env cd c b s g).2.2.1 = s1 ∧
            ∀ view : σ → String → Option String,
              (∀ k v, TouchesOnly view (c.Put k v) k) →
              (∀ k n, TouchesOnly view (c.PutInt k n) k) →
              ∀ k', k' ∉ (fieldKeys (b.path env)).take (pre.length + 1) →
                view s1 k' = view s k')) ∧
      (∀ e b1 s1 s2 g1,
        runWrites (b.fieldWrites c (b.path env)) s = (none, s1) →
        IsKeyNotFound (c.GetDir (b.path env) s).2 = true →
        Build.CreateStages env cd b s1 g = (Exit.error e, b1, s2, g1) →
          Build.Save env cd c b s g =
            (Exit.error e, b1, (c.DeleteTree (b.path env) s2).2, g1)) ∧
      (∀ (f : Faults) (p : String) (st : MapStore),
        f.deleteFails p = false → f.dirError p = none →
          (∀ k, under p k = true → MapStore.view ((mapClient f).DeleteTree p st).2 k = none) ∧
            (mapClient f).GetDir p ((mapClient f).DeleteTree p st).2 =
              ([], some Err.keyNotFound)) := by
  refine ⟨?_, ?_, fun f p st h1 h2 => mapClient_deleteTree_clears f p st h1 h2⟩
  · intro pre w post e s0 s1 hsplit hpre hw
    have hrun : runWrites (b.fieldWrites c (b.path env)) s = (some e, s1) := by
      rw [hsplit]; exact runWrites_append_fail pre post w s s0 s1 e hpre hw
    rw [Save_eq_runWrites, hrun]
    refine ⟨by simp only [handleSaveError]; split <;> rfl, ?_, ?_⟩
    · intro hnf
      have : b.probeNew env c s = true := by
        simp only [Build.probeNew, hnf, Bool.or_true]
      simp only [handleSaveError, this, if_true]
    · intro hok
      have : b.probeNew env c s = false := by
        simp [Build.probeNew, hok, IsKeyNotFound]
      refine ⟨by simp [handleSaveError, this], ?_⟩
      intro view hput hputInt k' hk'
      have hF := fieldWrites_touch c view b (b.path env) hput hputInt
      have hF' := List.forall₂_take (pre.length + 1) hF
      rw [hsplit] at hF'
      have htake : List.take (pre.length + 1) (pre ++ w :: post) = pre ++ [w] := by
        rw [List.take_append_eq_append_take]
        simp
      rw [htake] at hF'
      have := runWrites_frame view _ _ hF' s k' hk'
      rw [runWrites_append_fail pre [] w s s0 s1 e hpre hw] at this
      exact this
  · intro e b1 s1 s2 g1 hrun hnf hcs
    have : b.probeNew env c s = true := by
      simp only [Build.probeNew, hnf, Bool.or_true]
    rw [Save_eq_runWrites, hrun]
    simp only [this, if_true, hcs, handleSaveError]

end

set_option maxRecDepth 100000 in
/-- C3 (counterexample). The directory of `demoBuild` is absent from the
empty store, the second field write fails and so does the deletion of the
build path: `Save` returns the error, yet the key written first is still
present and `GetDir` on the build path lists it. -/
theorem save_rollback_not_guaranteed :
    ((mapClient writeFault).GetDir "pipelines/acme/app/builds/7" []).2 =
        some Err.keyNotFound ∧
      (Build.Save (refEnv writeFault demoPipeline) (goCodec nullOracle) (mapClient writeFault)
        demoBuild [] 0).1 = Exit.error (Err.other "put failed") ∧
      MapStore.view
        (Build.Save (refEnv writeFault demoPipeline) (goCodec nullOracle) (mapClient writeFault)
          demoBuild [] 0).2.2.1 "pipelines/acme/app/builds/7/uuid" = some "b-7" ∧
      (mapClient writeFault).GetDir "pipelines/acme/app/builds/7"
        (Build.Save (refEnv writeFault demoPipeline) (goCodec nullOracle) (mapClient writeFault)
          demoBuild [] 0).2.2.1 =
        ([KVPair.mk "pipelines/acme/app/builds/7/uuid" "b-7"], none) := by
  decide

set_option maxRecDepth 100000 in
/-- Witness of C3: on a store where the write of the status fails and
deletions work, saving the new build `demoBuild` returns the error of that
write and leaves the store as the deletion of the build path leaves it. -/
theorem save_failure_handling_witness :
    (Build.Save (refEnv statusFault demoPipeline) (goCodec nullOracle) (mapClient statusFault)
        demoBuild [] 0).1 = Exit.error (Err.other "put failed") ∧
      (Build.Save (refEnv statusFault demoPipeline) (goCodec nullOracle)
        (mapClient statusFault) demoBuild [] 0).2.2.1 =
        ((mapClient statusFault).DeleteTree
          (demoBuild.path (refEnv statusFault demoPipeline))
          [("pipelines/acme/app/builds/7/uuid", "b-7")]).2 :=
  have h := (save_failure_handling (refEnv statusFault demoPipeline) (goCodec nullOracle)
    (mapClient statusFault) demoBuild [] 0).1
    ((demoBuild.fieldWrites (mapClient statusFault)
      (demoBuild.path (refEnv statusFault demoPipeline))).take 1)
    ((mapClient statusFault).Put "pipelines/acme/app/builds/7/status" "RUNNING")
    ((demoBuild.fieldWrites (mapClient statusFault)
      (demoBuild.path (refEnv statusFault demoPipeline))).drop 2)
    (Err.other "put failed") [("pipelines/acme/app/builds/7/uuid", "b-7")]
    [("pipelines/acme/app/builds/7/uuid", "b-7")] rfl (by decide) (by decide)
  ⟨h.1, h.2.1 (by decide)⟩

/-! ## C4: deletion across the two stores -/

section

variable {σ ρ τ μ : Type}

/-- C4. `Delete` applies `DeleteTree` to the metadata path first, and the
metadata store is left as that call leaves it.  The deletion of the artifact
prefix `pipelines/<pipelinesID>/builds/<Number>` in bucket `kontinuous` is
requested, once, exactly when the metadata deletion succeeded.  If the
metadata deletion fails, its error is returned and the artifact store is not
touched (with a deletion that fails without effect both stores are as
before); if it succeeds and the artifact deletion fails, that error is
returned, the metadata deletion stays done and the artifact store is as the
failed call leaves it.  The result is nil exactly when both succeed. -/
theorem delete_two_step (env : Env σ ρ) (c : KVClient σ) (mc : MinioClient μ) (b : Build)
    (pipelinesID : String) (s : σ) (m : μ) :
    (Build.Delete env c mc.recording b pipelinesID s (m, [])).2.1 =
        (c.DeleteTree
          (env.pipelineNamespace ++ b.Pipeline ++ "/builds/" ++ FormatInt b.Number) s).2 ∧
      ((Build.Delete env c mc.recording b pipelinesID s (m, [])).2.2.2 =
          [("kontinuous", "pipelines/" ++ pipelinesID ++ "/builds/" ++ FormatInt b.Number)] ↔
        (c.DeleteTree
          (env.pipelineNamespace ++ b.Pipeline ++ "/builds/" ++ FormatInt b.Number) s).1 =
          none) ∧
      ((Build.Delete env c mc.recording b pipelinesID s (m, [])).2.2.2 = [] ↔
        (c.DeleteTree
          (env.pipelineNamespace ++ b.Pipeline ++ "/builds/" ++ FormatInt b.Number) s).1 ≠
          none) ∧
      (∀ e, (c.DeleteTree
          (env.pipelineNamespace ++ b.Pipeline ++ "/builds/" ++ FormatInt b.Number) s).1 =
          some e →
        (Build.Delete env c mc.recording b pipelinesID s (m, [])).1 = some e ∧
          (Build.Delete env c mc.recording b pipelinesID s (m, [])).2.2 = (m, [])) ∧
      (∀ e, c.DeleteTree
          (env.pipelineNamespace ++ b.Pipeline ++ "/builds/" ++ FormatInt b.Number) s =
          (some e, s) →
        Build.Delete env c mc.recording b pipelinesID s (m, []) = (some e, s, (m, []))) ∧
      (∀ e, (c.DeleteTree
          (env.pipelineNamespace ++ b.Pipeline ++ "/builds/" ++ FormatInt b.Number) s).1 =
          none →
        (mc.DeleteTree "kontinuous"
          ("pipelines/" ++ pipelinesID ++ "/builds/" ++ FormatInt b.Number) m).1 = some e →
        (Build.Delete env c mc.recording b pipelinesID s (m, [])).1 = some e ∧
          (Build.Delete env c mc.recording b pipelinesID s (m, [])).2.2.1 =
            (mc.DeleteTree "kontinuous"
              ("pipelines/" ++ pipelinesID ++ "/builds/" ++ FormatInt b.Number) m).2) ∧
      ((Build.Delete env c mc.recording b pipelinesID s (m, [])).1 = none ↔
        (c.DeleteTree
          (env.pipelineNamespace ++ b.Pipeline ++ "/builds/" ++ FormatInt b.Number) s).1 =
          none ∧
        (mc.DeleteTree "kontinuous"
          ("pipelines/" ++ pipelinesID ++ "/builds/" ++ FormatInt b.Number) m).1 = none) := by
  unfold Build.Delete MinioClient.recording
  simp only
  generalize c.DeleteTree
    (env.pipelineNamespace ++ b.Pipeline ++ "/builds/" ++ FormatInt b.Number) s = r1
  generalize mc.DeleteTree "kontinuous"
    ("pipelines/" ++ pipelinesID ++ "/builds/" ++ FormatInt b.Number) m = r2
  obtain ⟨e1, s1⟩ := r1
  obtain ⟨e2, m1⟩ := r2
  cases e1 <;> cases e2 <;> simp

/-- Witness of C4: the metadata deletion of `demoBuild` fails without effect,
so `Delete` returns its error, the artifacts are all still there and no
artifact deletion has been requested. -/
theorem delete_two_step_witness :
    Build.Delete (refEnv deleteFault demoPipeline) (mapClient deleteFault)
        (mapMinio false).recording demoBuild "p-1" existingStore (demoObjects, []) =
      (some (Err.other "delete failed"), existingStore, (demoObjects, [])) :=
  (delete_two_step (refEnv deleteFault demoPipeline) (mapClient deleteFault) (mapMinio false)
    demoBuild "p-1" existingStore demoObjects).2.2.2.2.1 (Err.other "delete failed")
    (by decide)

end

/-! ## C5: the variables a stage is rendered against -/

theorem get?_set (m : VarMap) (k v : String) :
    VarMap.get? (VarMap.set m k v) = Function.update (VarMap.get? m) k (some v) :=
  view_put m k v

theorem get?_foldl_of_not_mem (S : Vars) (m0 : VarMap) (k : String)
    (hk : k ∉ S.map Prod.fst) :
    VarMap.get? (S.foldl (fun (m : VarMap) e => VarMap.set m e.1 e.2.format) m0) k = VarMap.get? m0 k := by
  induction S generalizing m0 with
  | nil => rfl
  | cons e S' ih =>
    simp only [List.map_cons, List.mem_cons, not_or] at hk
    simp only [List.foldl_cons]
    rw [ih _ hk.2, get?_set, Function.update_apply, if_neg hk.1]

theorem get?_foldl_of_mem (S : Vars) (m0 : VarMap) (k : String) (v : Value)
    (hS : (S.map Prod.fst).Nodup) (hm : (k, v) ∈ S) :
    VarMap.get? (S.foldl (fun (m : VarMap) e => VarMap.set m e.1 e.2.format) m0) k = some v.format := by
  induction S generalizing m0 with
  | nil => cases hm
  | cons e S' ih =>
    simp only [List.map_cons, List.nodup_cons] at hS
    simp only [List.foldl_cons]
    rcases List.mem_cons.mp hm with h | h
    · subst h
      rw [get?_foldl_of_not_mem S' _ k hS.1, get?_set, Function.update_apply, if_pos rfl]
    · exact ih _ hS.2 h

theorem mem_keys_iff (m : VarMap) (k : String) :
    k ∈ m.map Prod.fst ↔ VarMap.get? m k ≠ none := by
  unfold VarMap.get?
  induction m with
  | nil => simp
  | cons e m' ih =>
    by_cases h : e.1 = k
    · simp [List.find?_cons, h]
    · have h' : ¬ k = e.1 := fun x => h x.symm
      simp only [List.map_cons, List.mem_cons, h', false_or, ih, List.find?_cons, h,
        decide_False]

theorem keys_set_nodup (m : VarMap) (k v : String) (h : (m.map Prod.fst).Nodup) :
    ((VarMap.set m k v).map Prod.fst).Nodup := by
  unfold VarMap.set
  simp only [List.map_cons, List.nodup_cons]
  constructor
  · intro hmem
    obtain ⟨x, hx, hxk⟩ := List.mem_map.mp hmem
    have := (List.mem_filter.mp hx).2
    simp only [ne_eq, decide_not, Bool.not_eq_true', decide_eq_false_iff_not] at this
    exact this hxk
  · exact (List.Sublist.map Prod.fst (List.filter_sublist m)).nodup h

theorem keys_foldl_nodup (S : Vars) (m0 : VarMap) (h : (m0.map Prod.fst).Nodup) :
    ((S.foldl (fun (m : VarMap) e => VarMap.set m e.1 e.2.format) m0).map Prod.fst).Nodup := by
  induction S generalizing m0 with
  | nil => exact h
  | cons e S' ih => exact ih _ (keys_set_nodup m0 _ _ h)

theorem mergeVars_pair (P S : Vars) :
    mergeVars [P, S] =
      S.foldl (fun (m : VarMap) e => VarMap.set m e.1 e.2.format)
        (P.foldl (fun (m : VarMap) e => VarMap.set m e.1 e.2.format) []) := rfl

/-! ### Rendering inside the fragment does not depend on the oracle -/

theorem parseStageTemplate_fragment {θ : Type} (o : Oracle θ) (stage : Stage)
    (maps : List Vars) (st' : Stage) (h : renderFragment stage maps = some st') :
    parseStageTemplate (goCodec o) stage maps = (Exit.ok, st') := by
  unfold renderFragment at h
  split at h
  · next segs hl => simp [parseStageTemplate, goCodec, hl, h]
  · cases h

theorem createStagesFrom_fragment {σ ρ θ : Type} (env : Env σ ρ) (o : Oracle θ)
    (pre : String) (p : Pipeline) (stages : List Stage) :
    ∀ (idx : Nat) (s : σ) (g : ρ), allInFragment env p idx stages g = true →
      createStagesFrom env (goCodec o) pre p idx stages s g =
        createStagesFrom env (goCodec nullOracle) pre p idx stages s g := by
  induction stages with
  | nil => intro idx s g _; rfl
  | cons st rest ih =>
    intro idx s g h
    simp only [allInFragment, Bool.and_eq_true, Option.isSome_iff_exists] at h
    obtain ⟨⟨st', hst⟩, hrest⟩ := h
    simp only [createStagesFrom]
    rw [parseStageTemplate_fragment o _ _ st' hst,
      parseStageTemplate_fragment nullOracle _ _ st' hst]
    simp only
    split
    · rfl
    · rw [ih (idx + 1) _ _ hrest]

theorem CreateStages_fragment {σ ρ θ : Type} (env : Env σ ρ) (o : Oracle θ) (b : Build)
    (s : σ) (g : ρ)
    (h : allInFragment env (env.getPipeline (env.pipelineNamespace ++ b.Pipeline) s) 0
      b.Stages g = true) :
    Build.CreateStages env (goCodec o) b s g =
      Build.CreateStages env (goCodec nullOracle) b s g := by
  simp only [Build.CreateStages]
  rw [createStagesFrom_fragment env o _ _ b.Stages 0 s g h]

set_option maxRecDepth 100000 in
/-- C5. Stage-local variables override pipeline variables.  For maps `P`
(pipeline) and `S` (stage), each with one entry per key, the map
`mergeVars [P, S]` that `parseStageTemplate` builds has exactly the keys of
`P` and `S`, once each; it maps every key of `S` to the string form of its
value in `S`, also when `P` has the key, and every key of `P` alone to the
string form of its value in `P`.  With pipeline variables `env = prod` and
stage variables `env = staging`, `image = app:{{.env}}`, `CreateStages`
returns the stage with `image = app:staging`, whatever the libraries do
outside the embedded fragment. -/
theorem stage_vars_override (P S : Vars) (hP : (P.map Prod.fst).Nodup)
    (hS : (S.map Prod.fst).Nodup) :
    (∀ k, k ∈ (mergeVars [P, S]).map Prod.fst ↔ k ∈ P.map Prod.fst ∨ k ∈ S.map Prod.fst) ∧
      ((mergeVars [P, S]).map Prod.fst).Nodup ∧
      (∀ k v, (k, v) ∈ S → (mergeVars [P, S]).get? k = some v.format) ∧
      (∀ k v, (k, v) ∈ P → k ∉ S.map Prod.fst →
        (mergeVars [P, S]).get? k = some v.format) ∧
      (∀ (θ : Type) (o : Oracle θ),
        ((Build.CreateStages (refEnv noFaults demoPipeline) (goCodec o) overrideBuild []
            0).2.1.Stages.map (fun st => st.Vars)) =
          [[("env", Value.str "staging"), ("image", Value.str "app:staging")]]) := by
  have hS' : ∀ k v, (k, v) ∈ S → (mergeVars [P, S]).get? k = some v.format := by
    intro k v hm
    rw [mergeVars_pair]
    exact get?_foldl_of_mem S _ k v hS hm
  have hP' : ∀ k v, (k, v) ∈ P → k ∉ S.map Prod.fst →
      (mergeVars [P, S]).get? k = some v.format := by
    intro k v hm hk
    rw [mergeVars_pair, get?_foldl_of_not_mem S _ k hk]
    exact get?_foldl_of_mem P _ k v hP hm
  refine ⟨?_, ?_, hS', hP', ?_⟩
  · intro k
    rw [mem_keys_iff]
    constructor
    · intro h
      by_contra hc
      simp only [not_or] at hc
      apply h
      rw [mergeVars_pair, get?_foldl_of_not_mem S _ k hc.2, get?_foldl_of_not_mem P _ k hc.1]
      rfl
    · intro h
      by_cases hk : k ∈ S.map Prod.fst
      · obtain ⟨⟨k', v⟩, hx, hxk⟩ := List.mem_map.mp hk
        simp only at hxk
        subst hxk
        rw [hS' _ v hx]
        simp
      · rcases h with h | h
        · obtain ⟨⟨k', v⟩, hx, hxk⟩ := List.mem_map.mp h
          simp only at hxk
          subst hxk
          rw [hP' _ v hx hk]
          simp
        · exact absurd h hk
  · rw [mergeVars_pair]
    exact keys_foldl_nodup S _ (keys_foldl_nodup P [] List.nodup_nil)
  · intro θ o
    rw [CreateStages_fragment _ o overrideBuild [] 0 (by decide)]
    decide

/-- Witness of C5: with the pipeline variables of `demoPipeline` and the
stage variables of `overrideStage`, the merged map holds the stage's value of
`env`. -/
theorem stage_vars_override_witness :
    (mergeVars [demoPipeline.Vars, overrideStage.Vars]).get? "env" = some "staging" :=
  (stage_vars_override demoPipeline.Vars overrideStage.Vars (by decide) (by decide)).2.2.1
    "env" (Value.str "staging") (by decide)

/-! ## C6: stage indices -/

set_option maxRecDepth 100000 in
/-- C6 (the code at the failing input). The first stage template of
`injectBuild` is named `{{.n}}` and the pipeline variable `n` holds
`x","index":7,"note":"y`.  `CreateStages` assigns the indices 1 and 2,
renders the first stage to a JSON text with a second `index` member, and
decodes it back: the stages come out with the indices 7 and 2, and the first
one is persisted under index 7, none under index 1.  This holds whatever the
libraries do outside the embedded fragment. -/
theorem createStages_index_overwritten (θ : Type) (o : Oracle θ) :
    (Build.CreateStages (refEnv noFaults injectPipeline) (goCodec o) injectBuild [] 0).1 =
        Exit.ok ∧
      (Build.CreateStages (refEnv noFaults injectPipeline) (goCodec o) injectBuild []
          0).2.1.Stages.map (fun st => st.Index) = [7, 2] ∧
      MapStore.view
          (Build.CreateStages (refEnv noFaults injectPipeline) (goCodec o) injectBuild []
            0).2.2.1 "pipelines/acme/app/builds/7/stages/7/index" = some "7" ∧
      MapStore.view
          (Build.CreateStages (refEnv noFaults injectPipeline) (goCodec o) injectBuild []
            0).2.2.1 "pipelines/acme/app/builds/7/stages/1/index" = none := by
  rw [CreateStages_fragment _ o injectBuild [] 0 (by decide)]
  decide

/-! ## C7: `GetStage` -/

section

variable {σ ρ τ μ : Type}

set_option maxRecDepth 100000 in
/-- C7 (counterexample). Stage 1 of `demoBuild` is present in `existingStore`,
but the listing of its directory fails with an error other than
key-not-found: `GetStage` answers `(nil, false)` although the directory is not
absent. -/
theorem getStage_false_without_absence :
    ((mapClient noFaults).GetDir "pipelines/acme/app/builds/7/stages/1" existingStore).2 =
        none ∧
      IsKeyNotFound
          ((mapClient stageProbeFault).GetDir "pipelines/acme/app/builds/7/stages/1"
            existingStore).2 = false ∧
      Build.GetStage (refEnv stageProbeFault demoPipeline) (mapClient stageProbeFault)
          demoBuild 1 existingStore = (none, false) := by
  decide

/-- C7, as amended. `GetStage(idx)` returns `(nil, false)` if and only if
`GetDir` on `<build path>/stages/<idx>` reports an error, key-not-found or
any other; it returns the stage loaded from that path together with `true`
if and only if `GetDir` reports none. -/
theorem getStage_iff_probe (env : Env σ ρ) (c : KVClient σ) (b : Build) (idx : Int) (s : σ) :
    (Build.GetStage env c b idx s = (none, false) ↔
        (c.GetDir (env.pipelineNamespace ++ b.Pipeline ++ "/builds/" ++ FormatInt b.Number
          ++ "/stages/" ++ FormatInt idx) s).2 ≠ none) ∧
      (Build.GetStage env c b idx s =
          (some (env.getStage (env.pipelineNamespace ++ b.Pipeline ++ "/builds/"
            ++ FormatInt b.Number ++ "/stages/" ++ FormatInt idx) s), true) ↔
        (c.GetDir (env.pipelineNamespace ++ b.Pipeline ++ "/builds/" ++ FormatInt b.Number
          ++ "/stages/" ++ FormatInt idx) s).2 = none) := by
  unfold Build.GetStage
  simp only
  generalize (c.GetDir (env.pipelineNamespace ++ b.Pipeline ++ "/builds/" ++ FormatInt b.Number
    ++ "/stages/" ++ FormatInt idx) s).2 = r
  cases r with
  | none => simp [IsKeyNotFound]
  | some e => simp

/-! ## C8: `GetStages` -/

/-- C8. `GetStages` tells absence from failure.  When the listing of the stage
directory reports key-not-found, it returns an empty, non-nil list and no
error, and the build is as before.  When the listing fails with another
error, it returns the nil list and that error, and the build is as before.
When the listing succeeds with entries `dirs`, it returns as many stages, the
`i`-th loaded from the key of the `i`-th entry, and the build holds the same
list in `Stages`. -/
theorem getStages_cases (env : Env σ ρ) (c : KVClient σ) (b : Build) (s : σ) :
    (∀ dirs, c.GetDir (env.pipelineNamespace ++ b.Pipeline ++ "/builds/" ++ FormatInt b.Number
          ++ "/stages") s = (dirs, some Err.keyNotFound) →
        Build.GetStages env c b s = ((some [], none), b)) ∧
      (∀ dirs msg, c.GetDir (env.pipelineNamespace ++ b.Pipeline ++ "/builds/"
          ++ FormatInt b.Number ++ "/stages") s = (dirs, some (Err.other msg)) →
        Build.GetStages env c b s = ((none, some (Err.other msg)), b)) ∧
      (∀ dirs, c.GetDir (env.pipelineNamespace ++ b.Pipeline ++ "/builds/" ++ FormatInt b.Number
          ++ "/stages") s = (dirs, none) →
        ∃ stages : List Stage,
          Build.GetStages env c b s = ((some stages, none), { b with Stages := stages }) ∧
            stages.length = dirs.length ∧
            ∀ (i : Nat) (h : i < dirs.length),
              stages[i]? = some (env.getStage (dirs.get ⟨i, h⟩).Key s)) := by
  refine ⟨?_, ?_, ?_⟩
  · intro dirs h
    simp [Build.GetStages, h, IsKeyNotFound]
  · intro dirs msg h
    simp [Build.GetStages, h, IsKeyNotFound]
  · intro dirs h
    refine ⟨dirs.map (fun pair => env.getStage pair.Key s), ?_, by simp, ?_⟩
    · simp [Build.GetStages, h]
    · intro i hi
      simp [List.getElem?_map, List.getElem?_eq_getElem hi]

set_option maxRecDepth 100000 in
/-- Witness of C8: the stage directory of `demoBuild` in `existingStore`
lists one entry, and `GetStages` returns the one stage loaded from it. -/
theorem getStages_cases_witness :
    ∃ stages : List Stage,
      Build.GetStages (refEnv noFaults demoPipeline) (mapClient noFaults) demoBuild
          existingStore = ((some stages, none), { demoBuild with Stages := stages }) ∧
        stages.length = [KVPair.mk "pipelines/acme/app/builds/7/stages/1" ""].length ∧
        ∀ (i : Nat) (h : i < [KVPair.mk "pipelines/acme/app/builds/7/stages/1" ""].length),
          stages[i]? = some ((refEnv noFaults demoPipeline).getStage
            ([KVPair.mk "pipelines/acme/app/builds/7/stages/1" ""].get ⟨i, h⟩).Key
            existingStore) :=
  (getStages_cases (refEnv noFaults demoPipeline) (mapClient noFaults) demoBuild
    existingStore).2.2 [KVPair.mk "pipelines/acme/app/builds/7/stages/1" ""] (by decide)

end

/-! ## C9: lenient decoding of timestamps -/

theorem digitsValue_ge (cs : List Char) (n : Nat) : n ≤ digitsValue cs n := by
  induction cs generalizing n with
  | nil => exact le_rfl
  | cons c cs ih =>
    simp only [digitsValue]
    exact le_trans (by omega) (ih _)

theorem parseUintLoop_eq (cs : List Char) (n : Nat) (hn : n ≤ maxUint64) :
    parseUintLoop cs n =
      if digitsValue (cs.takeWhile isDigitChar) n > maxUint64 then
        (maxUint64, some NumError.errRange)
      else if cs.takeWhile isDigitChar ≠ cs then (0, some NumError.errSyntax)
      else (digitsValue (cs.takeWhile isDigitChar) n, none) := by
  induction cs generalizing n with
  | nil =>
    have : ¬ n > maxUint64 := by omega
    simp [parseUintLoop, digitsValue, this]
  | cons c cs ih =>
    by_cases hd : 48 ≤ c.toNat ∧ c.toNat ≤ 57
    · have hdc : isDigitChar c = true := by simp [isDigitChar, hd]
      simp only [parseUintLoop, hd, and_self, if_true, List.takeWhile_cons, hdc, digitsValue]
      have hge := digitsValue_ge (cs.takeWhile isDigitChar) (n * 10 + (c.toNat - 48))
      by_cases hc : n ≥ cutoff10
      · have : digitsValue (cs.takeWhile isDigitChar) (n * 10 + (c.toNat - 48)) > maxUint64 := by
          simp only [cutoff10, maxUint64] at *
          omega
        simp [hc, this]
      · by_cases h1 : n * 10 + (c.toNat - 48) > maxUint64
        · have : digitsValue (cs.takeWhile isDigitChar) (n * 10 + (c.toNat - 48)) > maxUint64 :=
            lt_of_lt_of_le h1 hge
          simp [hc, h1, this]
        · simp only [hc, h1, if_false]
          rw [ih _ (by omega)]
          simp
    · have hdc : isDigitChar c = false := by simp [isDigitChar, hd]
      have : ¬ n > maxUint64 := by omega
      simp [parseUintLoop, hd, List.takeWhile_cons, hdc, digitsValue, this]

theorem parseIntSigned_eq (neg : Bool) (body : List Char) :
    (parseIntSigned neg body).1 =
      if body = [] then 0
      else if digitsValue (body.takeWhile isDigitChar) 0 > maxUint64 then
        (if neg then -(2 : Int) ^ 63 else (2 : Int) ^ 63 - 1)
      else if body.takeWhile isDigitChar ≠ body then 0
      else if neg then
        (if digitsValue (body.takeWhile isDigitChar) 0 > 2 ^ 63 then -(2 : Int) ^ 63
         else -(digitsValue (body.takeWhile isDigitChar) 0 : Int))
      else
        (if digitsValue (body.takeWhile isDigitChar) 0 ≥ 2 ^ 63 then (2 : Int) ^ 63 - 1
         else (digitsValue (body.takeWhile isDigitChar) 0 : Int)) := by
  unfold parseIntSigned ParseUint
  cases body with
  | nil => simp
  | cons c cs =>
    simp only [reduceCtorEq, if_false]
    rw [parseUintLoop_eq (c :: cs) 0 (by simp [maxUint64])]
    generalize digitsValue ((c :: cs).takeWhile isDigitChar) 0 = v
    by_cases h1 : v > maxUint64
    · rw [if_pos h1, if_pos h1]
      cases neg <;> simp [maxUint64]
    · rw [if_neg h1, if_neg h1]
      by_cases h2 : (c :: cs).takeWhile isDigitChar ≠ c :: cs
      · rw [if_pos h2, if_pos h2]
      · rw [if_neg h2, if_neg h2]
        cases neg
        · simp only [Bool.not_false, Bool.true_and, Bool.false_and, Bool.false_eq_true,
            if_false, decide_eq_true_eq]
          split <;> rfl
        · simp only [Bool.not_true, Bool.true_and, Bool.false_and, Bool.false_eq_true,
            if_false, if_true, decide_eq_true_eq]
          split <;> rfl

theorem ParseInt_eq_lenientInt64 (s : String) : (ParseInt s).1 = lenientInt64 s := by
  unfold ParseInt lenientInt64
  cases hs : s.data with
  | nil => simp
  | cons c cs =>
    simp only [List.head?_cons, Option.some.injEq, List.tail_cons]
    by_cases hp : c = '+'
    · subst hp
      simp only [if_true, true_or, parseIntSigned_eq]
      simp
    · by_cases hm : c = '-'
      · subst hm
        simp only [hp, if_false, if_true, or_true, parseIntSigned_eq]
        simp
      · simp only [hp, hm, if_false, or_self, parseIntSigned_eq]
        simp [hm]

theorem lenientInt64_isInt64 (s : String) : isInt64 (lenientInt64 s) := by
  unfold lenientInt64 isInt64
  simp only
  generalize digitsValue _ 0 = v
  split_ifs <;> constructor <;> omega

section

variable {σ ρ τ μ : Type}

theorem GetStages_times (env : Env σ ρ) (c : KVClient σ) (b : Build) (s : σ) :
    (Build.GetStages env c b s).2.Created = b.Created ∧
      (Build.GetStages env c b s).2.Started = b.Started ∧
      (Build.GetStages env c b s).2.Finished = b.Finished := by
  obtain ⟨stages, hst⟩ := GetStages_build env c b s
  rw [hst]
  exact ⟨rfl, rfl, rfl⟩

set_option maxRecDepth 100000 in
/-- C9 (counterexample). In `staleStore` the key `created` holds
`9223372036854775808`, one above the largest 64-bit integer, and `started`
holds twenty nines and a letter: `getBuild` and `getBuildSummary` decode both
to `9223372036854775807`, not to 0; `finished`, which holds `12x`, decodes
to 0. -/
theorem getBuild_out_of_range_not_zero :
    (getBuild (refEnv noFaults demoPipeline) (mapClient noFaults) "pipelines/acme/app/builds/7"
        staleStore).Created = 9223372036854775807 ∧
      (getBuild (refEnv noFaults demoPipeline) (mapClient noFaults)
        "pipelines/acme/app/builds/7" staleStore).Started = 9223372036854775807 ∧
      (getBuild (refEnv noFaults demoPipeline) (mapClient noFaults)
        "pipelines/acme/app/builds/7" staleStore).Finished = 0 ∧
      (getBuildSummary (mapClient noFaults) "pipelines/acme/app/builds/7"
        staleStore).Created = 9223372036854775807 ∧
      (getBuildSummary (mapClient noFaults) "pipelines/acme/app/builds/7"
        staleStore).Started = 9223372036854775807 := by
  decide

/-- C9, as amended. `getBuild` and `getBuildSummary` are total, and each of
`Created`, `Started` and `Finished` is the lenient decoding `lenientInt64` of
the text read for its key, always a 64-bit value: 0 for the empty text (a
missing key), for a bare sign and for a text with a character that is not a
digit, unless the leading digits already exceed 64 unsigned bits; the bound
of `int64` on the side of the sign when the digits exceed the range. -/
theorem lenient_decoding (env : Env σ ρ) (c : KVClient σ) (path : String) (s : σ) :
    (getBuild env c path s).Created = lenientInt64 (c.Get (path ++ "/created") s).1 ∧
      (getBuild env c path s).Started = lenientInt64 (c.Get (path ++ "/started") s).1 ∧
      (getBuild env c path s).Finished = lenientInt64 (c.Get (path ++ "/finished") s).1 ∧
      (getBuildSummary c path s).Created = lenientInt64 (c.Get (path ++ "/created") s).1 ∧
      (getBuildSummary c path s).Started = lenientInt64 (c.Get (path ++ "/started") s).1 ∧
      (getBuildSummary c path s).Finished = lenientInt64 (c.Get (path ++ "/finished") s).1 ∧
      (∀ text, isInt64 (lenientInt64 text)) ∧
      lenientInt64 "" = 0 ∧ lenientInt64 "-" = 0 ∧ lenientInt64 "12x" = 0 ∧
      lenientInt64 "9223372036854775808" = 9223372036854775807 ∧
      lenientInt64 "-9223372036854775809" = -9223372036854775808 := by
  refine ⟨?_, ?_, ?_, ?_, ?_, ?_, lenientInt64_isInt64, by decide, by decide, by decide,
    by decide, by decide⟩
  · unfold getBuild
    rw [(GetStages_times env c _ s).1]
    exact ParseInt_eq_lenientInt64 _
  · unfold getBuild
    rw [(GetStages_times env c _ s).2.1]
    exact ParseInt_eq_lenientInt64 _
  · unfold getBuild
    rw [(GetStages_times env c _ s).2.2]
    exact ParseInt_eq_lenientInt64 _
  · simp only [getBuildSummary, ParseInt_eq_lenientInt64]
  · simp only [getBuildSummary, ParseInt_eq_lenientInt64]
  · simp only [getBuildSummary, ParseInt_eq_lenientInt64]

end

/-! ## C10: `Notify` stops at the first failing notifier -/

section

variable {σ ρ τ μ ν : Type}

theorem collectSecrets_recording (ne : NotifyEnv ν) (ns : String) (names : List String)
    (secrets : VarMap) (w : ν) (l : List (Vars × Bool)) :
    (collectSecrets ne.recording ns names secrets (w, l)).2.2 = l := by
  induction names generalizing secrets w with
  | nil => rfl
  | cons n rest ih =>
    simp only [collectSecrets, NotifyEnv.recording]
    split
    · next w1 heq =>
      simp only [Prod.mk.injEq] at heq
      rw [← heq.2]
      exact ih _ _
    · next env w1 heq =>
      simp only [Prod.mk.injEq] at heq
      rw [← heq.2]
      exact ih _ _

theorem notifySwitch_recording (ne : NotifyEnv ν) (secrets : List String)
    (app : Option AppNotifier) (n : Notifier) (w : ν) (l : List (Vars × Bool)) :
    (notifySwitch ne.recording secrets app n (w, l)).2.2.2 = l := by
  unfold notifySwitch
  split
  · simp only [Build.getSecrets]
    exact collectSecrets_recording ne _ _ _ _ _
  · rfl

theorem notifyLoop_recording (ne : NotifyEnv ν) (b : Build)
    (stageStatus : Option (List StageStatus)) (secrets : List String) (ns : List Notifier) :
    ∀ (app : Option AppNotifier) (w : ν) (l : List (Vars × Bool)),
      (∀ x ∈ l, x.2 = true) →
        ((notifyLoop ne.recording b stageStatus secrets app ns (w, l)).1 = none ∧
            ∀ x ∈ (notifyLoop ne.recording b stageStatus secrets app ns (w, l)).2.2.2,
              x.2 = true) ∨
          ((notifyLoop ne.recording b stageStatus secrets app ns (w, l)).1 =
              some (Err.other "Unable to post Message!") ∧
            ∃ l' md,
              (notifyLoop ne.recording b stageStatus secrets app ns (w, l)).2.2.2 =
                  l' ++ [(md, false)] ∧
                ∀ x ∈ l', x.2 = true) := by
  induction ns with
  | nil => intro app w l hl; exact Or.inl ⟨rfl, hl⟩
  | cons n rest ih =>
    intro app w l hl
    have hsw := notifySwitch_recording ne secrets app n w l
    simp only [notifyLoop]
    generalize notifySwitch ne.recording secrets app n (w, l) = r at hsw
    obtain ⟨a, md, w1, l1⟩ := r
    simp only at hsw
    subst hsw
    cases a with
    | none => exact ih none w1 l1 hl
    | some a =>
      simp only [NotifyEnv.recording]
      generalize ne.PostMessage a b.Pipeline b.Number b.Status stageStatus md w1 = pm
      obtain ⟨ok, w2⟩ := pm
      cases ok with
      | false => exact Or.inr ⟨rfl, l1, md, rfl, hl⟩
      | true =>
        simp only
        refine ih (some a) w2 _ ?_
        intro x hx
        rcases List.mem_append.mp hx with h | h
        · exact hl x h
        · simp only [List.mem_singleton] at h
          rw [h]

theorem notifyLoop_append_fail (ne : NotifyEnv ν) (b : Build)
    (stageStatus : Option (List StageStatus)) (secrets : List String) (pre : List Notifier) :
    ∀ (app app1 : Option AppNotifier) (w w1 : ν) (n : Notifier) (post : List Notifier)
      (a : AppNotifier) (md : Vars) (w1' w2 : ν),
      notifyLoop ne b stageStatus secrets app pre w = (none, app1, w1) →
      notifySwitch ne secrets app1 n w1 = (some a, md, w1') →
      ne.PostMessage a b.Pipeline b.Number b.Status stageStatus md w1' = (false, w2) →
        notifyLoop ne b stageStatus secrets app (pre ++ n :: post) w =
          (some (Err.other "Unable to post Message!"), some a, w2) := by
  induction pre with
  | nil =>
    intro app app1 w w1 n post a md w1' w2 hpre hsw hpm
    simp only [notifyLoop, Prod.mk.injEq, true_and] at hpre
    obtain ⟨rfl, rfl⟩ := hpre
    simp only [List.nil_append, notifyLoop, hsw, hpm]
  | cons m rest ih =>
    intro app app1 w w1 n post a md w1' w2 hpre hsw hpm
    simp only [List.cons_append, notifyLoop] at hpre ⊢
    split at hpre
    · next x y w3 heq =>
      exact ih _ _ _ _ n post a md w1' w2 hpre hsw hpm
    · next x a' md' w3 heq =>
      split at hpre
      · cases hpre
      · next w4 heq2 =>
        exact ih _ _ _ _ n post a md w1' w2 hpre hsw hpm

end

section

variable {σ ρ τ μ ν : Type}

/-- C10. `Notify` stops at the first failing notifier.  If the sends for the
notifiers before position `k` all succeeded and the send for the notifier at
position `k` returns false, `Notify` returns a non-nil error and the world is
as that send left it, whatever notifiers follow: no send is invoked for them.
With every send recorded: `Notify` returns nil exactly when every send it
invoked returned true, and when it returns an error the failed send is the
last one invoked and the only one that failed. -/
theorem notify_stops_at_first_failure (env : Env σ ρ) (ne : NotifyEnv ν) (c : KVClient σ)
    (b : Build) (s : σ) (w : ν) :
    (∀ pre n post app1 w1 a md w1' w2,
        (env.getPipeline (env.pipelineNamespace ++ b.Pipeline) s).Notifiers = pre ++ n :: post →
        notifyLoop ne b (Build.getStatus env c b s).1
          (env.getPipeline (env.pipelineNamespace ++ b.Pipeline) s).Secrets none pre w =
            (none, app1, w1) →
        notifySwitch ne (env.getPipeline (env.pipelineNamespace ++ b.Pipeline) s).Secrets app1 n
          w1 = (some a, md, w1') →
        ne.PostMessage a b.Pipeline b.Number b.Status (Build.getStatus env c b s).1 md w1' =
          (false, w2) →
          (Build.Notify env ne c b s w).1 = some (Err.other "Unable to post Message!") ∧
            (Build.Notify env ne c b s w).2.2 = w2) ∧
      ((Build.Notify env ne.recording c b s (w, [])).1 = none ↔
        ∀ x ∈ (Build.Notify env ne.recording c b s (w, [])).2.2.2, x.2 = true) ∧
      ((Build.Notify env ne.recording c b s (w, [])).1 ≠ none →
        ∃ l md, (Build.Notify env ne.recording c b s (w, [])).2.2.2 = l ++ [(md, false)] ∧
          ∀ x ∈ l, x.2 = true) := by
  refine ⟨?_, ?_, ?_⟩
  · intro pre n post app1 w1 a md w1' w2 hsplit hpre hsw hpm
    have h := notifyLoop_append_fail ne b _ _ pre none app1 w w1 n post a md w1' w2 hpre hsw hpm
    simp only [Build.Notify, hsplit, h, and_self]
  · have h := notifyLoop_recording ne b (Build.getStatus env c b s).1
      (env.getPipeline (env.pipelineNamespace ++ b.Pipeline) s).Secrets
      (env.getPipeline (env.pipelineNamespace ++ b.Pipeline) s).Notifiers none w []
      (by intro x hx; cases hx)
    simp only [Build.Notify]
    rcases h with ⟨h1, h2⟩ | ⟨h1, l', md, h2, -⟩
    · exact ⟨fun _ => h2, fun _ => h1⟩
    · constructor
      · intro hn; rw [h1] at hn; cases hn
      · intro hall
        have := hall (md, false) (by rw [h2]; simp)
        cases this
  · have h := notifyLoop_recording ne b (Build.getStatus env c b s).1
      (env.getPipeline (env.pipelineNamespace ++ b.Pipeline) s).Secrets
      (env.getPipeline (env.pipelineNamespace ++ b.Pipeline) s).Notifiers none w []
      (by intro x hx; cases hx)
    simp only [Build.Notify]
    intro hne
    rcases h with ⟨h1, -⟩ | ⟨-, l', md, h2, h3⟩
    · exact absurd h1 hne
    · exact ⟨l', md, h2, h3⟩

set_option maxRecDepth 100000 in
/-- Witness of C10: of the three notifiers of `notifyPipeline` the first send
succeeds and the second fails; `Notify` returns the error and the counter of
sends stands at two, so the third notifier has not been sent to. -/
theorem notify_stops_at_first_failure_witness :
    (Build.Notify (refEnv noFaults notifyPipeline) (demoNotifyEnv [""]) (mapClient noFaults)
        demoBuild existingStore 0).1 = some (Err.other "Unable to post Message!") ∧
      (Build.Notify (refEnv noFaults notifyPipeline) (demoNotifyEnv [""]) (mapClient noFaults)
        demoBuild existingStore 0).2.2 = 2 :=
  (notify_stops_at_first_failure (refEnv noFaults notifyPipeline) (demoNotifyEnv [""])
    (mapClient noFaults) demoBuild existingStore 0).1
    [{ Type_ := "slack", Namespace := "acme", Metadata := [] }]
    { Type_ := "mail", Namespace := "acme", Metadata := [("channel", Value.str "ops")] }
    [{ Type_ := "mail", Namespace := "acme", Metadata := [("channel", Value.str "dev")] }]
    (some AppNotifier.slack) 1 AppNotifier.slack [("channel", Value.str "ops")] 1 2
    (by decide) (by decide) (by decide) (by decide)

end

/-! ## C11: template failures -/

theorem parseStageTemplate_unclosed {θ : Type} (o : Oracle θ) (stage : Stage)
    (maps : List Vars) (h : lexText (marshalStage stage) = Lexed.unclosed) :
    parseStageTemplate (goCodec o) stage maps = (Exit.panic, stage) := by
  simp [parseStageTemplate, goCodec, h]

theorem parseStageTemplate_exec_error {τ : Type} (cd : StageCodec τ) (stage : Stage)
    (maps : List Vars) (t : τ) (e : Err) (hp : cd.Parse (cd.Marshal stage) = some t)
    (he : cd.Execute t (mergeVars maps) = Except.error e) :
    parseStageTemplate cd stage maps = (Exit.error e, stage) := by
  simp [parseStageTemplate, hp, he]

set_option maxRecDepth 100000 in
/-- C11 (the code at the failing input). The name of `unclosedStage` is `{{`,
so its serialized text opens a template action that nothing closes and
`Parse` fails.  `parseStageTemplate` drops that error and keeps the nil
template, and `ExecuteTemplate` on it panics: no error is returned, for any
variable maps and whatever the libraries do outside the embedded fragment.
The panic ends `CreateStages` as well. -/
theorem parseStageTemplate_parse_failure_panics (θ : Type) (o : Oracle θ)
    (varMaps : List Vars) :
    (goCodec o).Parse ((goCodec o).Marshal unclosedStage) = none ∧
      parseStageTemplate (goCodec o) unclosedStage varMaps = (Exit.panic, unclosedStage) ∧
      (Build.CreateStages (refEnv noFaults demoPipeline) (goCodec o) unclosedBuild []
        0).1 = Exit.panic := by
  have h : lexText (marshalStage unclosedStage) = Lexed.unclosed := by decide
  refine ⟨by simp [goCodec, h], parseStageTemplate_unclosed o _ _ h, ?_⟩
  have h1 : lexText (marshalStage
      { unclosedStage with
        Status := (refEnv noFaults demoPipeline).BuildPending, Index := ((0 : Nat) : Int) + 1,
        ID := ((refEnv noFaults demoPipeline).generateUUID 0).1 }) = Lexed.unclosed := by
    decide
  simp only [Build.CreateStages, unclosedBuild, createStagesFrom]
  rw [parseStageTemplate_unclosed o _ _ h1]

/-! ## C12: which notifiers `Notify` dispatches to -/

section

variable {σ ρ τ μ ν : Type}

theorem notifySwitch_sender (ne : NotifyEnv ν) (secrets : List String)
    (app : Option AppNotifier) (n : Notifier) (w : ν) :
    (notifySwitch ne secrets app n w).1 =
      if n.Type_ = "slack" then some AppNotifier.slack else app := by
  unfold notifySwitch
  split <;> rfl

theorem notifySwitch_metadata (ne : NotifyEnv ν) (secrets : List String)
    (app : Option AppNotifier) (n : Notifier) (w : ν) :
    (n.Type_ ≠ "slack" → (notifySwitch ne secrets app n w).2.1 = n.Metadata) ∧
      (n.Type_ = "slack" →
        (notifySwitch ne secrets app n w).2.1.map Prod.fst = ["channel", "url", "username"]) := by
  unfold notifySwitch
  constructor
  · intro h; simp [h]
  · intro h; simp [h, Build.getSecrets]

theorem notifyLoop_no_slack (ne : NotifyEnv ν) (b : Build)
    (stageStatus : Option (List StageStatus)) (secrets : List String) (ns : List Notifier)
    (w : ν) (h : ∀ n ∈ ns, n.Type_ ≠ "slack") :
    notifyLoop ne b stageStatus secrets none ns w = (none, none, w) := by
  induction ns with
  | nil => rfl
  | cons n rest ih =>
    have hn : n.Type_ ≠ "slack" := h n (List.mem_cons_self _ _)
    simp only [notifyLoop, notifySwitch, hn, if_false]
    exact ih (fun m hm => h m (List.mem_cons_of_mem _ hm))

theorem notifyLoop_dispatch (ne : NotifyEnv ν) (b : Build)
    (stageStatus : Option (List StageStatus)) (secrets : List String) (ns : List Notifier) :
    ∀ (app : Option AppNotifier) (w : ν) (l : List (Vars × Bool)),
      (notifyLoop ne.recording b stageStatus secrets app ns (w, l)).1 = none →
        ∃ l', (notifyLoop ne.recording b stageStatus secrets app ns (w, l)).2.2.2 = l ++ l' ∧
          List.Forall₂ Dispatched
            (match app with
              | none => ns.dropWhile (fun n => n.Type_ ≠ "slack")
              | some _ => ns) l' := by
  induction ns with
  | nil =>
    intro app w l _
    refine ⟨[], by simp [notifyLoop], ?_⟩
    cases app <;> exact List.Forall₂.nil
  | cons n rest ih =>
    intro app w l hnil
    have hlog := notifySwitch_recording ne secrets app n w l
    have hsend := notifySwitch_sender ne.recording secrets app n (w, l)
    have hmd := notifySwitch_metadata ne.recording secrets app n (w, l)
    simp only [notifyLoop] at hnil ⊢
    generalize notifySwitch ne.recording secrets app n (w, l) = r at hlog hsend hmd hnil
    obtain ⟨a, md, w1, l1⟩ := r
    simp only at hlog hsend hmd
    subst hlog
    cases a with
    | none =>
      have hns : n.Type_ ≠ "slack" := by
        intro hs; rw [if_pos hs] at hsend; cases hsend
      rw [if_neg hns] at hsend
      subst hsend
      simp only at hnil ⊢
      obtain ⟨l', h1, h2⟩ := ih none w1 l1 hnil
      refine ⟨l', h1, ?_⟩
      simp only [List.dropWhile_cons, hns, ne_eq, not_false_eq_true, decide_True, if_true]
      exact h2
    | some a =>
      simp only [NotifyEnv.recording] at hnil ⊢
      generalize ne.PostMessage a b.Pipeline b.Number b.Status stageStatus md w1 = pm at hnil
      obtain ⟨ok, w2⟩ := pm
      cases ok with
      | false => simp at hnil
      | true =>
        simp only at hnil ⊢
        obtain ⟨l', h1, h2⟩ := ih (some a) w2 _ hnil
        refine ⟨(md, true) :: l', h1.trans (by simp), ?_⟩
        have hd : Dispatched n (md, true) := ⟨rfl, hmd.1, hmd.2⟩
        by_cases hs : n.Type_ = "slack"
        · cases app with
          | none =>
            simp only [List.dropWhile_cons, hs, ne_eq, not_true_eq_false, decide_False]
            exact List.Forall₂.cons hd h2
          | some a' => exact List.Forall₂.cons hd h2
        · rw [if_neg hs] at hsend
          subst hsend
          exact List.Forall₂.cons hd h2

end

section

variable {σ ρ τ μ ν : Type}

/-- C12. Which notifiers `Notify` dispatches to.  The sender is set exactly
when a notifier of type `slack` is met and is otherwise left as it is, so it
is never reset.  With every send recorded: when every send that `Notify`
invokes succeeds, `Notify` returns nil and the sends correspond, one to one
and in order, to the notifiers from the first `slack` notifier on; a notifier
of another type among them is sent with its own metadata, a `slack` notifier
with the resolved `channel`, `url` and `username`; no send is made for a
notifier before the first `slack` one.  If no notifier is of type `slack`,
`Notify` returns nil and leaves the world untouched: nothing is sent. -/
theorem notify_dispatch (env : Env σ ρ) (ne : NotifyEnv ν) (c : KVClient σ) (b : Build)
    (s : σ) (w : ν) :
    (∀ (secrets : List String) (app : Option AppNotifier) (n : Notifier) (w' : ν),
        (notifySwitch ne secrets app n w').1 =
          if n.Type_ = "slack" then some AppNotifier.slack else app) ∧
      ((∀ x ∈ (Build.Notify env ne.recording c b s (w, [])).2.2.2, x.2 = true) →
        (Build.Notify env ne.recording c b s (w, [])).1 = none ∧
          List.Forall₂ Dispatched
            ((env.getPipeline (env.pipelineNamespace ++ b.Pipeline) s).Notifiers.dropWhile
              (fun n => n.Type_ ≠ "slack"))
            (Build.Notify env ne.recording c b s (w, [])).2.2.2) ∧
      ((∀ n ∈ (env.getPipeline (env.pipelineNamespace ++ b.Pipeline) s).Notifiers,
          n.Type_ ≠ "slack") →
        Build.Notify env ne c b s w = (none, (Build.getStatus env c b s).2, w)) := by
  refine ⟨fun secrets app n w' => notifySwitch_sender ne secrets app n w', ?_, ?_⟩
  · intro hall
    have hrec := notifyLoop_recording ne b (Build.getStatus env c b s).1
      (env.getPipeline (env.pipelineNamespace ++ b.Pipeline) s).Secrets
      (env.getPipeline (env.pipelineNamespace ++ b.Pipeline) s).Notifiers none w []
      (by intro x hx; cases hx)
    simp only [Build.Notify] at hall ⊢
    have hnil : (notifyLoop ne.recording b (Build.getStatus env c b s).1
        (env.getPipeline (env.pipelineNamespace ++ b.Pipeline) s).Secrets none
        (env.getPipeline (env.pipelineNamespace ++ b.Pipeline) s).Notifiers (w, [])).1 =
        none := by
      rcases hrec with ⟨h1, -⟩ | ⟨-, l', md, h2, -⟩
      · exact h1
      · have := hall (md, false) (by rw [h2]; simp)
        cases this
    obtain ⟨l', h1, h2⟩ := notifyLoop_dispatch ne b (Build.getStatus env c b s).1
      (env.getPipeline (env.pipelineNamespace ++ b.Pipeline) s).Secrets
      (env.getPipeline (env.pipelineNamespace ++ b.Pipeline) s).Notifiers none w [] hnil
    refine ⟨hnil, ?_⟩
    rw [h1, List.nil_append]
    exact h2
  · intro hno
    simp only [Build.Notify]
    rw [notifyLoop_no_slack ne b _ _ _ w hno]

set_option maxRecDepth 100000 in
/-- Witness of C12: of the four notifiers of `dispatchPipeline` the second is
the `slack` one and every send succeeds; `Notify` returns nil and its sends
correspond to the last three notifiers. -/
theorem notify_dispatch_witness :
    (Build.Notify (refEnv noFaults dispatchPipeline)
        (demoNotifyEnv ["", "ops", "dev"]).recording (mapClient noFaults) demoBuild
        existingStore (0, [])).1 = none ∧
      List.Forall₂ Dispatched (dispatchNotifiers.dropWhile (fun n => n.Type_ ≠ "slack"))
        (Build.Notify (refEnv noFaults dispatchPipeline)
          (demoNotifyEnv ["", "ops", "dev"]).recording (mapClient noFaults) demoBuild
          existingStore (0, [])).2.2.2 :=
  (notify_dispatch (refEnv noFaults dispatchPipeline) (demoNotifyEnv ["", "ops", "dev"])
    (mapClient noFaults) demoBuild existingStore 0).2.1 (by decide)

end

end Kontinuous
